import Mathlib

/-!
Shallow embedding of the pickleball open-play scheduler core (`src/app.py`).

The mutable dictionary `data` of the source becomes an explicit `AppState`
record.  The five core operations (`add_player` via the sidebar button,
`initialize_queue`, `assign_all_courts`, `process_court_result`,
`reset_all_data`) become pure state transformers; `process_court_result`
additionally returns a `Bool` that is `true` exactly on the successful path
(the source's early `return` after the "Not enough players" warning is the
`false` path, which leaves the state untouched).  `random.shuffle` becomes a
step-relation parameter: any permutation of the roster may be chosen.
Streaks are the total function `Player → Nat` with default `0`, matching the
source's `dict.get(w, 0)` reads.
-/

namespace Pickleball

abbrev Player := String

structure Config where
  maxPlayers : Nat
  numCourts : Nat
deriving Repr, DecidableEq

inductive Team where
  | team1
  | team2
deriving Repr, DecidableEq

/-- One entry of `data["history"]`: the source stores `court_index + 1`
in the `"court"` field, and the winner/loser lists as they sat on the court. -/
structure MatchRecord where
  court : Nat
  winners : List Player
  losers : List Player
deriving Repr, DecidableEq

/-- The `data` dictionary of `src/app.py`. -/
structure AppState where
  players : List Player
  queue : List Player
  courts : List (List Player)
  streaks : Player → Nat
  history : List MatchRecord

/-- The default state built when no data file exists (`load_json` default). -/
def initState (cfg : Config) : AppState :=
  { players := []
    queue := []
    courts := List.replicate cfg.numCourts []
    streaks := fun _ => 0
    history := [] }

/-- The "Add Player" button handler: capacity check first, then the
`new_player and new_player not in data["players"]` guard. -/
def addPlayer (cfg : Config) (s : AppState) (name : Player) : AppState :=
  if cfg.maxPlayers ≤ s.players.length then s
  else if name ≠ "" ∧ name ∉ s.players then
    { s with players := s.players ++ [name], queue := s.queue ++ [name] }
  else s

/-- Operation `initialize_queue`: warns and returns when the roster is empty, otherwise
replaces the queue with a shuffled copy of the roster.  The permutation chosen
by `random.shuffle` is passed in as `shuffled`; the step relation restricts it
to permutations of `players`.  Note that the courts are NOT cleared. -/
def initializeQueue (s : AppState) (shuffled : List Player) : AppState :=
  if s.players = [] then s else { s with queue := shuffled }

/-- Source loop `for p in court: streaks[p] = 1` (with a generalised value). -/
def setStreaks (g : Player → Nat) (v : Nat) : List Player → (Player → Nat)
  | [] => g
  | p :: ps => setStreaks (fun q => if q = p then v else g q) v ps

/-- One iteration body of `assign_all_courts`: dequeue four players onto
court `i` and set their streaks to 1. -/
def assignCourt (s : AppState) (i : Nat) : AppState :=
  { s with
    courts := s.courts.set i (s.queue.take 4)
    queue := s.queue.drop 4
    streaks := setStreaks s.streaks 1 (s.queue.take 4) }

/-- The `for i in range(num_courts)` loop of `assign_all_courts`, with the
`if len(queue) < 4: break` guard checked before each court. -/
def fillAux : AppState → Nat → Nat → AppState
  | s, _, 0 => s
  | s, i, n + 1 => if s.queue.length < 4 then s else fillAux (assignCourt s i) (i + 1) n

/-- Operation `assign_all_courts`. -/
def assignAllCourts (cfg : Config) (s : AppState) : AppState :=
  fillAux s 0 cfg.numCourts

/-- Source line `winners = court[:2] if winning_team == "Team 1" else court[2:]`. -/
def winnersOf (court : List Player) (t : Team) : List Player :=
  match t with
  | .team1 => court.take 2
  | .team2 => court.drop 2

/-- Source line `losers = court[2:] if winning_team == "Team 1" else court[:2]`. -/
def losersOf (court : List Player) (t : Team) : List Player :=
  match t with
  | .team1 => court.drop 2
  | .team2 => court.take 2

/-- Source loop `for w in winners: streaks[w] = streaks.get(w, 0) + 1`. -/
def bumpStreaks (g : Player → Nat) : List Player → (Player → Nat)
  | [] => g
  | w :: ws => bumpStreaks (fun q => if q = w then g w + 1 else g q) ws

/-- Source loop `for l in losers: streaks[l] = 0`. -/
def zeroStreaks (g : Player → Nat) : List Player → (Player → Nat)
  | [] => g
  | l :: ls => zeroStreaks (fun q => if q = l then 0 else g q) ls

/-- Accumulator of the `staying` loop: the `staying` list, the streak map and
the queue, all three of which that loop mutates. -/
structure StayAcc where
  staying : List Player
  streaks : Player → Nat
  queue : List Player

/-- The `for w in winners` stay/rotate loop of `process_court_result`:
a winner whose (already updated) streak is below 3 joins `staying`; otherwise
their streak is reset to 0 and they are appended to the queue. -/
def stayLoop (acc : StayAcc) : List Player → StayAcc
  | [] => acc
  | w :: ws =>
    if acc.streaks w < 3 then
      stayLoop { acc with staying := acc.staying ++ [w] } ws
    else
      stayLoop
        { staying := acc.staying
          streaks := fun q => if q = w then 0 else acc.streaks q
          queue := acc.queue ++ [w] } ws

/-- Operation `process_court_result`.  Returns the new state and `true` on success;
on the `len(court) < 4` early return it yields the unchanged state and
`false`.  The reseed mirrors the source exactly, including
`new_court = [staying[0]]; new_court += staying` in the short-queue branch
(which duplicates `staying[0]`), and the history record storing
`court_index + 1`. -/
def processCourtResult (s : AppState) (i : Nat) (t : Team) : AppState × Bool :=
  let court := s.courts.getD i []
  if court.length < 4 then (s, false)
  else
    let winners := winnersOf court t
    let losers := losersOf court t
    let acc := stayLoop ⟨[], zeroStreaks (bumpStreaks s.streaks winners) losers, s.queue⟩ winners
    let pair : List Player × List Player :=
      if acc.staying.length = 2 then
        if 3 ≤ acc.queue.length then
          ([acc.staying.getD 0 "", acc.queue.getD 0 "", acc.queue.getD 1 "",
            acc.staying.getD 1 ""], acc.queue.drop 2)
        else (acc.staying.getD 0 "" :: acc.staying, acc.queue)
      else ([], acc.queue)
    ({ s with
        courts := s.courts.set i pair.1
        queue := pair.2 ++ losers
        streaks := acc.streaks
        history := s.history ++ [⟨i + 1, winners, losers⟩] }, true)

/-- One user-triggered core operation, as invoked from the UI: the court index
of a result submission is always one of the rendered courts
(`for i, col in enumerate(cols)`), hence `i < cfg.numCourts`. -/
inductive Step (cfg : Config) : AppState → AppState → Prop where
  | add (s : AppState) (name : Player) : Step cfg s (addPlayer cfg s name)
  | shuffle (s : AppState) (newQ : List Player) (hperm : newQ.Perm s.players) :
      Step cfg s (initializeQueue s newQ)
  | fill (s : AppState) : Step cfg s (assignAllCourts cfg s)
  | process (s : AppState) (i : Nat) (t : Team) (hi : i < cfg.numCourts)
      (hok : (processCourtResult s i t).2 = true) :
      Step cfg s (processCourtResult s i t).1
  | reset (s : AppState) : Step cfg s (initState cfg)

/-- States reachable from the empty initial state by core operations. -/
def Reachable (cfg : Config) (s : AppState) : Prop :=
  Relation.ReflTransGen (Step cfg) (initState cfg) s

/-- Like `Step`, but `initialize_queue` may only be invoked while every court
is empty (the discipline under which the mutual-exclusion invariant holds). -/
inductive SafeStep (cfg : Config) : AppState → AppState → Prop where
  | add (s : AppState) (name : Player) : SafeStep cfg s (addPlayer cfg s name)
  | shuffle (s : AppState) (newQ : List Player) (hperm : newQ.Perm s.players)
      (hempty : ∀ c ∈ s.courts, c = []) :
      SafeStep cfg s (initializeQueue s newQ)
  | fill (s : AppState) : SafeStep cfg s (assignAllCourts cfg s)
  | process (s : AppState) (i : Nat) (t : Team) (hi : i < cfg.numCourts)
      (hok : (processCourtResult s i t).2 = true) :
      SafeStep cfg s (processCourtResult s i t).1
  | reset (s : AppState) : SafeStep cfg s (initState cfg)

/-- States reachable when queue re-shuffles happen only with all courts empty. -/
def ReachableSafe (cfg : Config) (s : AppState) : Prop :=
  Relation.ReflTransGen (SafeStep cfg) (initState cfg) s

/-! ### Helper lemmas about the streak folds -/

theorem bumpStreaks_not_mem : ∀ (ws : List Player) (g : Player → Nat) (p : Player),
    p ∉ ws → bumpStreaks g ws p = g p
  | [], _, _, _ => rfl
  | w :: ws, g, p, hp => by
    have h1 : p ∉ ws := fun h => hp (List.mem_cons_of_mem _ h)
    have h2 : p ≠ w := fun h => hp (h ▸ List.mem_cons_self _ _)
    rw [bumpStreaks, bumpStreaks_not_mem ws _ p h1, if_neg h2]

theorem zeroStreaks_not_mem : ∀ (ls : List Player) (g : Player → Nat) (p : Player),
    p ∉ ls → zeroStreaks g ls p = g p
  | [], _, _, _ => rfl
  | l :: ls, g, p, hp => by
    have h1 : p ∉ ls := fun h => hp (List.mem_cons_of_mem _ h)
    have h2 : p ≠ l := fun h => hp (h ▸ List.mem_cons_self _ _)
    rw [zeroStreaks, zeroStreaks_not_mem ls _ p h1, if_neg h2]

theorem zeroStreaks_mem : ∀ (ls : List Player) (g : Player → Nat) (p : Player),
    p ∈ ls → zeroStreaks g ls p = 0
  | l :: ls, g, p, hp => by
    by_cases h1 : p ∈ ls
    · rw [zeroStreaks, zeroStreaks_mem ls _ p h1]
    · have h2 : p = l := by
        rcases List.mem_cons.mp hp with h | h
        · exact h
        · exact absurd h h1
      rw [zeroStreaks, zeroStreaks_not_mem ls _ p h1, h2, if_pos rfl]

theorem stayLoop_streaks_not_mem : ∀ (ws : List Player) (acc : StayAcc) (p : Player),
    p ∉ ws → (stayLoop acc ws).streaks p = acc.streaks p
  | [], _, _, _ => rfl
  | w :: ws, acc, p, hp => by
    have h1 : p ∉ ws := fun h => hp (List.mem_cons_of_mem _ h)
    have h2 : p ≠ w := fun h => hp (h ▸ List.mem_cons_self _ _)
    rw [stayLoop]
    split
    · rw [stayLoop_streaks_not_mem ws _ p h1]
    · rw [stayLoop_streaks_not_mem ws _ p h1]
      exact if_neg h2

theorem stayLoop_streaks_lt : ∀ (ws : List Player) (acc : StayAcc) (p : Player),
    p ∈ ws → (stayLoop acc ws).streaks p < 3
  | w :: ws, acc, p, hp => by
    by_cases h1 : p ∈ ws
    · rw [stayLoop]
      split
      · exact stayLoop_streaks_lt ws _ p h1
      · exact stayLoop_streaks_lt ws _ p h1
    · have h2 : p = w := by
        rcases List.mem_cons.mp hp with h | h
        · exact h
        · exact absurd h h1
      subst h2
      rw [stayLoop]
      split
      · rw [stayLoop_streaks_not_mem ws _ p h1]
        assumption
      · rw [stayLoop_streaks_not_mem ws _ p h1]
        simp

theorem stayLoop_queue_spec : ∀ (ws : List Player) (acc : StayAcc),
    ∃ rot, (stayLoop acc ws).queue = acc.queue ++ rot ∧ ∀ p ∈ rot, p ∈ ws
  | [], acc => ⟨[], by simp [stayLoop]⟩
  | w :: ws, acc => by
    rw [stayLoop]
    split
    · obtain ⟨rot, h1, h2⟩ := stayLoop_queue_spec ws { acc with staying := acc.staying ++ [w] }
      exact ⟨rot, h1, fun p hp => List.mem_cons_of_mem _ (h2 p hp)⟩
    · obtain ⟨rot, h1, h2⟩ := stayLoop_queue_spec ws
        { staying := acc.staying
          streaks := fun q => if q = w then 0 else acc.streaks q
          queue := acc.queue ++ [w] }
      refine ⟨w :: rot, ?_, ?_⟩
      · simpa using h1
      · intro p hp
        rcases List.mem_cons.mp hp with h | h
        · exact h ▸ List.mem_cons_self _ _
        · exact List.mem_cons_of_mem _ (h2 p h)

theorem stayLoop_staying_spec : ∀ (ws : List Player) (acc : StayAcc),
    ∃ st, (stayLoop acc ws).staying = acc.staying ++ st ∧ ∀ p ∈ st, p ∈ ws
  | [], acc => ⟨[], by simp [stayLoop]⟩
  | w :: ws, acc => by
    rw [stayLoop]
    split
    · obtain ⟨st, h1, h2⟩ := stayLoop_staying_spec ws { acc with staying := acc.staying ++ [w] }
      refine ⟨w :: st, ?_, ?_⟩
      · simpa using h1
      · intro p hp
        rcases List.mem_cons.mp hp with h | h
        · exact h ▸ List.mem_cons_self _ _
        · exact List.mem_cons_of_mem _ (h2 p h)
    · obtain ⟨st, h1, h2⟩ := stayLoop_staying_spec ws
        { staying := acc.staying
          streaks := fun q => if q = w then 0 else acc.streaks q
          queue := acc.queue ++ [w] }
      exact ⟨st, h1, fun p hp => List.mem_cons_of_mem _ (h2 p hp)⟩

theorem setStreaks_not_mem : ∀ (ps : List Player) (g : Player → Nat) (v : Nat) (p : Player),
    p ∉ ps → setStreaks g v ps p = g p
  | [], _, _, _, _ => rfl
  | q :: ps, g, v, p, hp => by
    have h1 : p ∉ ps := fun h => hp (List.mem_cons_of_mem _ h)
    have h2 : p ≠ q := fun h => hp (h ▸ List.mem_cons_self _ _)
    rw [setStreaks, setStreaks_not_mem ps _ v p h1, if_neg h2]

theorem setStreaks_mem : ∀ (ps : List Player) (g : Player → Nat) (v : Nat) (p : Player),
    p ∈ ps → setStreaks g v ps p = v
  | q :: ps, g, v, p, hp => by
    by_cases h1 : p ∈ ps
    · rw [setStreaks, setStreaks_mem ps _ v p h1]
    · have h2 : p = q := by
        rcases List.mem_cons.mp hp with h | h
        · exact h
        · exact absurd h h1
      rw [setStreaks, setStreaks_not_mem ps _ v p h1, h2, if_pos rfl]

theorem setStreaks_cases (ps : List Player) (g : Player → Nat) (v : Nat) (p : Player) :
    setStreaks g v ps p = g p ∨ setStreaks g v ps p = v := by
  by_cases h : p ∈ ps
  · exact Or.inr (setStreaks_mem ps g v p h)
  · exact Or.inl (setStreaks_not_mem ps g v p h)

/-! ### List helpers -/

theorem getD_set_self {α : Type} (l : List (List α)) (i : Nat) (a : List α)
    (h : i < l.length) : (l.set i a).getD i [] = a := by
  simp [List.getD_eq_getElem?_getD, List.getElem?_set_self, h]

theorem getD_set_ne {α : Type} (l : List (List α)) (i j : Nat) (a : List α)
    (h : i ≠ j) : (l.set i a).getD j [] = l.getD j [] := by
  simp [List.getD_eq_getElem?_getD, List.getElem?_set_ne, h]

theorem getD_set_cases {α : Type} (l : List (List α)) (i j : Nat) (a : List α) :
    (l.set i a).getD j [] = l.getD j [] ∨
    ((l.set i a).getD j [] = a ∧ i = j ∧ i < l.length) := by
  by_cases hij : i = j
  · subst hij
    by_cases hl : i < l.length
    · exact Or.inr ⟨getD_set_self l i a hl, rfl, hl⟩
    · rw [List.set_eq_of_length_le (Nat.le_of_not_lt hl)]
      exact Or.inl rfl
  · exact Or.inl (getD_set_ne l i j a hij)

theorem getD_mem_of_lt {α : Type} (l : List α) (i : Nat) (d : α) (h : i < l.length) :
    l.getD i d ∈ l := by
  rw [List.getD_eq_getElem l d h]
  exact List.getElem_mem h

theorem length_eq_four {α : Type} (l : List α) (h : l.length = 4) :
    ∃ a b c d, l = [a, b, c, d] := by
  match l, h with
  | [a, b, c, d], _ => exact ⟨a, b, c, d, rfl⟩

/-! ### Lemmas about `assign_all_courts` -/

theorem assignCourt_players (s : AppState) (i : Nat) : (assignCourt s i).players = s.players :=
  rfl

theorem assignCourt_history (s : AppState) (i : Nat) : (assignCourt s i).history = s.history :=
  rfl

theorem fillAux_players : ∀ (n : Nat) (s : AppState) (i : Nat),
    (fillAux s i n).players = s.players
  | 0, _, _ => rfl
  | n + 1, s, i => by
    rw [fillAux]
    split
    · rfl
    · rw [fillAux_players n]
      rfl

theorem fillAux_history : ∀ (n : Nat) (s : AppState) (i : Nat),
    (fillAux s i n).history = s.history
  | 0, _, _ => rfl
  | n + 1, s, i => by
    rw [fillAux]
    split
    · rfl
    · rw [fillAux_history n]
      rfl

theorem fillAux_courts_length : ∀ (n : Nat) (s : AppState) (i : Nat),
    (fillAux s i n).courts.length = s.courts.length
  | 0, _, _ => rfl
  | n + 1, s, i => by
    rw [fillAux]
    split
    · rfl
    · rw [fillAux_courts_length n]
      simp [assignCourt]

theorem fillAux_queue_drop : ∀ (n : Nat) (s : AppState) (i : Nat),
    ∃ m, (fillAux s i n).queue = s.queue.drop m
  | 0, s, _ => ⟨0, rfl⟩
  | n + 1, s, i => by
    rw [fillAux]
    split
    · exact ⟨0, rfl⟩
    · obtain ⟨m, hm⟩ := fillAux_queue_drop n (assignCourt s i) (i + 1)
      refine ⟨4 + m, ?_⟩
      rw [hm]
      show (s.queue.drop 4).drop m = _
      rw [List.drop_drop]

theorem fillAux_streaks_cases : ∀ (n : Nat) (s : AppState) (i : Nat) (p : Player),
    (fillAux s i n).streaks p = s.streaks p ∨ (fillAux s i n).streaks p = 1
  | 0, _, _, _ => Or.inl rfl
  | n + 1, s, i, p => by
    rw [fillAux]
    split
    · exact Or.inl rfl
    · rcases fillAux_streaks_cases n (assignCourt s i) (i + 1) p with h | h
      · rw [h]
        exact setStreaks_cases _ _ _ _
      · exact Or.inr h

theorem fillAux_lower : ∀ (n : Nat) (s : AppState) (i j : Nat), j < i →
    (fillAux s i n).courts.getD j [] = s.courts.getD j []
  | 0, _, _, _, _ => rfl
  | n + 1, s, i, j, hj => by
    rw [fillAux]
    split
    · rfl
    · rw [fillAux_lower n _ _ _ (Nat.lt_succ_of_lt hj)]
      exact getD_set_ne _ _ _ _ (Nat.ne_of_gt hj)

theorem fillAux_courts_pos : ∀ (n : Nat) (s : AppState) (i j : Nat),
    (fillAux s i n).courts.getD j [] = s.courts.getD j [] ∨
    ∃ w, (fillAux s i n).courts.getD j [] = (s.queue.drop w).take 4 ∧
      w + 4 ≤ s.queue.length
  | 0, _, _, _ => Or.inl rfl
  | n + 1, s, i, j => by
    rw [fillAux]
    split
    · exact Or.inl rfl
    · rename_i h4
      rcases fillAux_courts_pos n (assignCourt s i) (i + 1) j with h | ⟨w, hw, hwlen⟩
      · rw [h]
        rcases getD_set_cases s.courts i j (s.queue.take 4) with h' | ⟨h', _, _⟩
        · exact Or.inl h'
        · refine Or.inr ⟨0, ?_, by omega⟩
          show (s.courts.set i (s.queue.take 4)).getD j [] = _
          rw [h']
          simp
      · refine Or.inr ⟨4 + w, ?_, ?_⟩
        · rw [hw]
          show ((s.queue.drop 4).drop w).take 4 = _
          rw [List.drop_drop]
        · have : (assignCourt s i).queue.length = s.queue.length - 4 := by
            simp [assignCourt]
          omega

theorem fillAux_queue_full : ∀ (n : Nat) (s : AppState) (i : Nat),
    4 * n ≤ s.queue.length → (fillAux s i n).queue = s.queue.drop (4 * n)
  | 0, s, _, _ => rfl
  | n + 1, s, i, hlen => by
    rw [fillAux, if_neg (by omega)]
    have hrec := fillAux_queue_full n (assignCourt s i) (i + 1)
      (by simp [assignCourt]; omega)
    rw [hrec]
    show (s.queue.drop 4).drop (4 * n) = _
    rw [List.drop_drop]
    congr 1
    omega

theorem fillAux_streaks_one : ∀ (n : Nat) (s : AppState) (i : Nat),
    4 * n ≤ s.queue.length → ∀ p ∈ s.queue.take (4 * n), (fillAux s i n).streaks p = 1
  | 0, s, _, _ => by simp
  | n + 1, s, i, hlen => by
    intro p hp
    rw [fillAux, if_neg (by omega)]
    have hsplit : s.queue.take (4 * (n + 1)) =
        s.queue.take 4 ++ (s.queue.drop 4).take (4 * n) := by
      have h1 : 4 * (n + 1) = 4 + 4 * n := by omega
      rw [h1, List.take_add]
    rw [hsplit] at hp
    rcases List.mem_append.mp hp with h | h
    · have h1 : (assignCourt s i).streaks p = 1 := setStreaks_mem _ _ _ _ h
      rcases fillAux_streaks_cases n (assignCourt s i) (i + 1) p with h2 | h2
      · rw [h2, h1]
      · exact h2
    · exact fillAux_streaks_one n (assignCourt s i) (i + 1)
        (by simp [assignCourt]; omega) p h

theorem fillAux_reassign : ∀ (n : Nat) (s : AppState) (i j : Nat), j < n →
    4 * (j + 1) ≤ s.queue.length → i + j < s.courts.length →
    (fillAux s i n).courts.getD (i + j) [] = (s.queue.drop (4 * j)).take 4
  | n + 1, s, i, 0, _, hq, hc => by
    rw [fillAux, if_neg (by omega)]
    rw [fillAux_lower n _ _ _ (by omega)]
    have : (assignCourt s i).courts.getD i [] = s.queue.take 4 :=
      getD_set_self _ _ _ (by simpa using hc)
    simpa using this
  | n + 1, s, i, j + 1, hj, hq, hc => by
    rw [fillAux, if_neg (by omega)]
    have h1 : i + (j + 1) = (i + 1) + j := by omega
    rw [h1]
    have hrec := fillAux_reassign n (assignCourt s i) (i + 1) j
      (by omega)
      (by simp [assignCourt]; omega)
      (by simp [assignCourt]; omega)
    rw [hrec]
    show ((s.queue.drop 4).drop (4 * j)).take 4 = _
    rw [List.drop_drop]
    congr 2
    omega

/-! ### Normal forms for `process_court_result` -/

/-- The accumulator produced by the stay/rotate loop inside
`process_court_result` (named so the theorems can speak about it). -/
def resultAcc (s : AppState) (i : Nat) (t : Team) : StayAcc :=
  stayLoop
    ⟨[], zeroStreaks (bumpStreaks s.streaks (winnersOf (s.courts.getD i []) t))
      (losersOf (s.courts.getD i []) t), s.queue⟩
    (winnersOf (s.courts.getD i []) t)

/-- The (new court, new queue-before-losers) pair built by the reseed branch of
`process_court_result`. -/
def resultPair (s : AppState) (i : Nat) (t : Team) : List Player × List Player :=
  if (resultAcc s i t).staying.length = 2 then
    if 3 ≤ (resultAcc s i t).queue.length then
      ([(resultAcc s i t).staying.getD 0 "", (resultAcc s i t).queue.getD 0 "",
        (resultAcc s i t).queue.getD 1 "", (resultAcc s i t).staying.getD 1 ""],
       (resultAcc s i t).queue.drop 2)
    else
      ((resultAcc s i t).staying.getD 0 "" :: (resultAcc s i t).staying,
       (resultAcc s i t).queue)
  else ([], (resultAcc s i t).queue)

theorem processCourtResult_fail (s : AppState) (i : Nat) (t : Team)
    (h4 : (s.courts.getD i []).length < 4) :
    processCourtResult s i t = (s, false) := by
  rw [processCourtResult]
  exact if_pos h4

theorem processCourtResult_ok (s : AppState) (i : Nat) (t : Team)
    (h4 : ¬(s.courts.getD i []).length < 4) :
    processCourtResult s i t =
      ({ s with
          courts := s.courts.set i (resultPair s i t).1
          queue := (resultPair s i t).2 ++ losersOf (s.courts.getD i []) t
          streaks := (resultAcc s i t).streaks
          history := s.history ++
            [⟨i + 1, winnersOf (s.courts.getD i []) t, losersOf (s.courts.getD i []) t⟩] },
       true) := by
  rw [processCourtResult]
  rw [if_neg h4]
  rfl

theorem winnersOf_sublist (c : List Player) (t : Team) : (winnersOf c t).Sublist c := by
  cases t
  · exact List.take_sublist 2 c
  · exact List.drop_sublist 2 c

theorem losersOf_sublist (c : List Player) (t : Team) : (losersOf c t).Sublist c := by
  cases t
  · exact List.drop_sublist 2 c
  · exact List.take_sublist 2 c

theorem resultAcc_staying_mem (s : AppState) (i : Nat) (t : Team) :
    ∀ p ∈ (resultAcc s i t).staying, p ∈ winnersOf (s.courts.getD i []) t := by
  intro p hp
  obtain ⟨st, h1, h2⟩ := stayLoop_staying_spec (winnersOf (s.courts.getD i []) t)
    ⟨[], zeroStreaks (bumpStreaks s.streaks (winnersOf (s.courts.getD i []) t))
      (losersOf (s.courts.getD i []) t), s.queue⟩
  rw [resultAcc] at hp
  rw [h1] at hp
  exact h2 p (by simpa using hp)

theorem resultAcc_queue_spec (s : AppState) (i : Nat) (t : Team) :
    ∃ rot, (resultAcc s i t).queue = s.queue ++ rot ∧
      ∀ p ∈ rot, p ∈ winnersOf (s.courts.getD i []) t := by
  obtain ⟨rot, h1, h2⟩ := stayLoop_queue_spec (winnersOf (s.courts.getD i []) t)
    ⟨[], zeroStreaks (bumpStreaks s.streaks (winnersOf (s.courts.getD i []) t))
      (losersOf (s.courts.getD i []) t), s.queue⟩
  exact ⟨rot, h1, h2⟩

theorem resultAcc_queue_mem (s : AppState) (i : Nat) (t : Team) :
    ∀ p ∈ (resultAcc s i t).queue, p ∈ s.queue ∨ p ∈ winnersOf (s.courts.getD i []) t := by
  intro p hp
  obtain ⟨rot, h1, h2⟩ := resultAcc_queue_spec s i t
  rw [h1] at hp
  rcases List.mem_append.mp hp with h | h
  · exact Or.inl h
  · exact Or.inr (h2 p h)

theorem resultPair_court_mem (s : AppState) (i : Nat) (t : Team) :
    ∀ p ∈ (resultPair s i t).1,
      p ∈ (resultAcc s i t).staying ∨ p ∈ (resultAcc s i t).queue := by
  intro p hp
  rw [resultPair] at hp
  split at hp
  · rename_i h2
    split at hp
    · rename_i h3
      simp only [List.mem_cons, List.not_mem_nil, or_false] at hp
      rcases hp with h | h | h | h
      · exact Or.inl (h ▸ getD_mem_of_lt _ 0 _ (by omega))
      · exact Or.inr (h ▸ getD_mem_of_lt _ 0 _ (by omega))
      · exact Or.inr (h ▸ getD_mem_of_lt _ 1 _ (by omega))
      · exact Or.inl (h ▸ getD_mem_of_lt _ 1 _ (by omega))
    · rcases List.mem_cons.mp hp with h | h
      · exact Or.inl (h ▸ getD_mem_of_lt _ 0 _ (by omega))
      · exact Or.inl h
  · simp at hp

theorem resultPair_queue_mem (s : AppState) (i : Nat) (t : Team) :
    ∀ p ∈ (resultPair s i t).2, p ∈ (resultAcc s i t).queue := by
  intro p hp
  rw [resultPair] at hp
  split at hp
  · split at hp
    · exact (List.drop_sublist 2 _).mem hp
    · exact hp
  · exact hp

theorem resultPair_length (s : AppState) (i : Nat) (t : Team) :
    (resultPair s i t).1.length = 0 ∨ (resultPair s i t).1.length = 3 ∨
      (resultPair s i t).1.length = 4 := by
  rw [resultPair]
  split
  · rename_i h2
    split
    · right; right; rfl
    · right; left
      simp [h2]
  · left; rfl

/-! ### Component lemmas for the simple operations -/

theorem addPlayer_courts (cfg : Config) (s : AppState) (name : Player) :
    (addPlayer cfg s name).courts = s.courts := by
  rw [addPlayer]
  split
  · rfl
  · split
    · rfl
    · rfl

theorem addPlayer_streaks (cfg : Config) (s : AppState) (name : Player) :
    (addPlayer cfg s name).streaks = s.streaks := by
  rw [addPlayer]
  split
  · rfl
  · split
    · rfl
    · rfl

theorem addPlayer_history (cfg : Config) (s : AppState) (name : Player) :
    (addPlayer cfg s name).history = s.history := by
  rw [addPlayer]
  split
  · rfl
  · split
    · rfl
    · rfl

theorem initializeQueue_courts (s : AppState) (q : List Player) :
    (initializeQueue s q).courts = s.courts := by
  rw [initializeQueue]
  split
  · rfl
  · rfl

theorem initializeQueue_streaks (s : AppState) (q : List Player) :
    (initializeQueue s q).streaks = s.streaks := by
  rw [initializeQueue]
  split
  · rfl
  · rfl

theorem initializeQueue_players (s : AppState) (q : List Player) :
    (initializeQueue s q).players = s.players := by
  rw [initializeQueue]
  split
  · rfl
  · rfl

/-! ### Invariants over all reachable states -/

theorem initState_getD_court (cfg : Config) (j : Nat) :
    (initState cfg).courts.getD j [] = [] := by
  rw [initState]
  rcases Nat.lt_or_ge j cfg.numCourts with h | h
  · rw [List.getD_eq_getElem _ _ (by simpa using h)]
    simp
  · rw [List.getD_eq_default]
    simpa using h

/-- Every court slot holds 0, 3 or 4 entries (3 via the short-queue reseed). -/
def LenInv (s : AppState) : Prop :=
  ∀ j, (s.courts.getD j []).length = 0 ∨ (s.courts.getD j []).length = 3 ∨
    (s.courts.getD j []).length = 4

theorem lenInv_step {cfg : Config} {s s' : AppState} (h : Step cfg s s')
    (ih : LenInv s) : LenInv s' := by
  cases h with
  | add name =>
    intro j
    rw [addPlayer_courts]
    exact ih j
  | shuffle newQ hperm =>
    intro j
    rw [initializeQueue_courts]
    exact ih j
  | fill =>
    intro j
    rw [assignAllCourts]
    rcases fillAux_courts_pos cfg.numCourts s 0 j with h | ⟨w, hw, hwlen⟩
    · rw [h]
      exact ih j
    · rw [hw]
      right; right
      simp only [List.length_take, List.length_drop]
      omega
  | process i t hi hok =>
    by_cases h4 : (s.courts.getD i []).length < 4
    · rw [processCourtResult_fail s i t h4] at hok
      exact absurd hok (by simp)
    · intro j
      rw [processCourtResult_ok s i t h4]
      dsimp only
      rcases getD_set_cases s.courts i j (resultPair s i t).1 with h | ⟨h, _, _⟩
      · rw [h]
        exact ih j
      · rw [h]
        exact resultPair_length s i t
  | reset =>
    intro j
    rw [initState_getD_court]
    left
    rfl

theorem lenInv_reachable {cfg : Config} {s : AppState} (h : Reachable cfg s) : LenInv s := by
  induction h with
  | refl =>
    intro j
    rw [initState_getD_court]
    left
    rfl
  | tail hsteps hstep ih => exact lenInv_step hstep ih

/-- No streak counter ever persists at 3 or more between operations. -/
def StreakInv (s : AppState) : Prop :=
  ∀ p, s.streaks p ≤ 2

theorem streakInv_step {cfg : Config} {s s' : AppState} (h : Step cfg s s')
    (ih : StreakInv s) : StreakInv s' := by
  cases h with
  | add name =>
    intro p
    rw [addPlayer_streaks]
    exact ih p
  | shuffle newQ hperm =>
    intro p
    rw [initializeQueue_streaks]
    exact ih p
  | fill =>
    intro p
    rw [assignAllCourts]
    rcases fillAux_streaks_cases cfg.numCourts s 0 p with h | h
    · rw [h]
      exact ih p
    · rw [h]
      omega
  | process i t hi hok =>
    by_cases h4 : (s.courts.getD i []).length < 4
    · rw [processCourtResult_fail s i t h4] at hok
      exact absurd hok (by simp)
    · intro p
      rw [processCourtResult_ok s i t h4]
      dsimp only
      by_cases hw : p ∈ winnersOf (s.courts.getD i []) t
      · have hlt := stayLoop_streaks_lt (winnersOf (s.courts.getD i []) t)
          ⟨[], zeroStreaks (bumpStreaks s.streaks (winnersOf (s.courts.getD i []) t))
            (losersOf (s.courts.getD i []) t), s.queue⟩ p hw
        rw [resultAcc]
        omega
      · rw [resultAcc, stayLoop_streaks_not_mem _ _ _ hw]
        dsimp only
        by_cases hl : p ∈ losersOf (s.courts.getD i []) t
        · rw [zeroStreaks_mem _ _ _ hl]
          omega
        · rw [zeroStreaks_not_mem _ _ _ hl, bumpStreaks_not_mem _ _ _ hw]
          exact ih p
  | reset =>
    intro p
    exact Nat.zero_le 2

theorem streakInv_reachable {cfg : Config} {s : AppState} (h : Reachable cfg s) :
    StreakInv s := by
  induction h with
  | refl => intro p; exact Nat.zero_le 2
  | tail hsteps hstep ih => exact streakInv_step hstep ih

/-- Queue and court occupants always belong to the roster. -/
def SubsetInv (s : AppState) : Prop :=
  (∀ p ∈ s.queue, p ∈ s.players) ∧ ∀ j, ∀ p ∈ s.courts.getD j [], p ∈ s.players

theorem subsetInv_step {cfg : Config} {s s' : AppState} (h : Step cfg s s')
    (ih : SubsetInv s) : SubsetInv s' := by
  cases h with
  | add name =>
    rw [addPlayer]
    split
    · exact ih
    · split
      · constructor
        · intro p hp
          dsimp only at hp ⊢
          rcases List.mem_append.mp hp with h | h
          · exact List.mem_append_left _ (ih.1 p h)
          · exact List.mem_append_right _ h
        · intro j p hp
          dsimp only at hp ⊢
          exact List.mem_append_left _ (ih.2 j p hp)
      · exact ih
  | shuffle newQ hperm =>
    rw [initializeQueue]
    split
    · exact ih
    · constructor
      · intro p hp
        dsimp only at hp ⊢
        exact hperm.mem_iff.mp hp
      · intro j p hp
        exact ih.2 j p hp
  | fill =>
    constructor
    · intro p hp
      rw [assignAllCourts] at hp ⊢
      rw [fillAux_players]
      obtain ⟨m, hm⟩ := fillAux_queue_drop cfg.numCourts s 0
      rw [hm] at hp
      exact ih.1 p ((List.drop_sublist m _).mem hp)
    · intro j p hp
      rw [assignAllCourts] at hp ⊢
      rw [fillAux_players]
      rcases fillAux_courts_pos cfg.numCourts s 0 j with h | ⟨w, hw, _⟩
      · rw [h] at hp
        exact ih.2 j p hp
      · rw [hw] at hp
        exact ih.1 p ((List.drop_sublist w _).mem ((List.take_sublist 4 _).mem hp))
  | process i t hi hok =>
    by_cases h4 : (s.courts.getD i []).length < 4
    · rw [processCourtResult_fail s i t h4] at hok
      exact absurd hok (by simp)
    · rw [processCourtResult_ok s i t h4]
      constructor
      · intro p hp
        dsimp only at hp ⊢
        rcases List.mem_append.mp hp with h | h
        · rcases resultAcc_queue_mem s i t p (resultPair_queue_mem s i t p h) with h' | h'
          · exact ih.1 p h'
          · exact ih.2 i p ((winnersOf_sublist _ t).mem h')
        · exact ih.2 i p ((losersOf_sublist _ t).mem h)
      · intro j p hp
        dsimp only at hp ⊢
        rcases getD_set_cases s.courts i j (resultPair s i t).1 with h | ⟨h, _, _⟩
        · rw [h] at hp
          exact ih.2 j p hp
        · rw [h] at hp
          rcases resultPair_court_mem s i t p hp with h' | h'
          · exact ih.2 i p ((winnersOf_sublist _ t).mem (resultAcc_staying_mem s i t p h'))
          · rcases resultAcc_queue_mem s i t p h' with h'' | h''
            · exact ih.1 p h''
            · exact ih.2 i p ((winnersOf_sublist _ t).mem h'')
  | reset =>
    constructor
    · intro p hp
      exact absurd hp (List.not_mem_nil p)
    · intro j p hp
      rw [initState_getD_court] at hp
      exact absurd hp (List.not_mem_nil p)

theorem subsetInv_reachable {cfg : Config} {s : AppState} (h : Reachable cfg s) :
    SubsetInv s := by
  induction h with
  | refl =>
    constructor
    · intro p hp
      exact absurd hp (List.not_mem_nil p)
    · intro j p hp
      rw [initState_getD_court] at hp
      exact absurd hp (List.not_mem_nil p)
  | tail hsteps hstep ih => exact subsetInv_step hstep ih

/-! ### Evaluating the stay loop on a two-winner list -/

theorem stayLoop_pair (st0 : List Player) (g : Player → Nat) (q : List Player)
    (w1 w2 : Player) (hne : w1 ≠ w2) :
    stayLoop ⟨st0, g, q⟩ [w1, w2] =
      if g w1 < 3 then
        if g w2 < 3 then ⟨st0 ++ [w1, w2], g, q⟩
        else ⟨st0 ++ [w1], fun p => if p = w2 then 0 else g p, q ++ [w2]⟩
      else
        if g w2 < 3 then
          ⟨st0 ++ [w2], fun p => if p = w1 then 0 else g p, q ++ [w1]⟩
        else
          ⟨st0, fun p => if p = w2 then 0 else if p = w1 then 0 else g p,
            q ++ [w1, w2]⟩ := by
  have h21 : ¬(w2 = w1) := fun h => hne h.symm
  rw [stayLoop]
  dsimp only
  by_cases h1 : g w1 < 3
  · rw [if_pos h1, stayLoop]
    dsimp only
    by_cases h2 : g w2 < 3
    · rw [if_pos h2, if_pos h1, if_pos h2, stayLoop]
      simp
    · rw [if_neg h2, if_pos h1, if_neg h2, stayLoop]
  · rw [if_neg h1, stayLoop]
    dsimp only
    rw [if_neg h21]
    by_cases h2 : g w2 < 3
    · rw [if_pos h2, if_neg h1, if_pos h2, stayLoop]
    · rw [if_neg h2, if_neg h1, if_neg h2, stayLoop]
      simp

theorem winners_append_losers_perm (c : List Player) (t : Team) :
    (winnersOf c t ++ losersOf c t).Perm c := by
  cases t
  · rw [winnersOf, losersOf, List.take_append_drop]
  · rw [winnersOf, losersOf]
    exact List.perm_append_comm.trans (by rw [List.take_append_drop])

theorem winnersOf_length (c : List Player) (t : Team) (h : c.length = 4) :
    (winnersOf c t).length = 2 := by
  cases t
  · simp [winnersOf]
    omega
  · simp [winnersOf]
    omega

theorem losersOf_length (c : List Player) (t : Team) (h : c.length = 4) :
    (losersOf c t).length = 2 := by
  cases t
  · simp [losersOf]
    omega
  · simp [losersOf]
    omega

/-! ### The mutual-exclusion invariant (safe traces) -/

/-- Inductive invariant for traces in which `initialize_queue` is only used
while all courts are empty: roster and queue are duplicate-free, queue and
courts are pairwise disjoint, everything is rostered, and court sizes are
as produced by the code. -/
structure SafeInv (cfg : Config) (s : AppState) : Prop where
  playersND : s.players.Nodup
  queueND : s.queue.Nodup
  courtsLen : s.courts.length = cfg.numCourts
  queueSub : ∀ p ∈ s.queue, p ∈ s.players
  courtSub : ∀ j, ∀ p ∈ s.courts.getD j [], p ∈ s.players
  disj : ∀ p ∈ s.queue, ∀ j, p ∉ s.courts.getD j []
  courtsDisj : ∀ j j', j ≠ j' → ∀ p ∈ s.courts.getD j [], p ∉ s.courts.getD j' []
  fullND : ∀ j, (s.courts.getD j []).length = 4 → (s.courts.getD j []).Nodup
  lenOK : ∀ j, (s.courts.getD j []).length = 0 ∨ (s.courts.getD j []).length = 3 ∨
    (s.courts.getD j []).length = 4

theorem safeInv_init (cfg : Config) : SafeInv cfg (initState cfg) := by
  refine ⟨List.nodup_nil, List.nodup_nil, by simp [initState], ?_, ?_, ?_, ?_, ?_, ?_⟩
  · intro p hp
    exact absurd hp (List.not_mem_nil p)
  · intro j p hp
    rw [initState_getD_court] at hp
    exact absurd hp (List.not_mem_nil p)
  · intro p hp
    exact absurd hp (List.not_mem_nil p)
  · intro j j' _ p hp
    rw [initState_getD_court] at hp
    exact absurd hp (List.not_mem_nil p)
  · intro j hj
    rw [initState_getD_court] at hj ⊢
    exact List.nodup_nil
  · intro j
    rw [initState_getD_court]
    left
    rfl

/-- Generic preservation: replacing court `i`, the queue, the streak map and
the history preserves `SafeInv` provided the new court and queue fit in. -/
theorem safeInv_update {cfg : Config} {s : AppState} (h : SafeInv cfg s) (i : Nat)
    (hii : i < s.courts.length)
    (NC NQ : List Player) (g : Player → Nat) (hist : List MatchRecord)
    (h1 : NQ.Nodup)
    (h2 : ∀ p ∈ NQ, p ∈ s.players)
    (h3 : ∀ p ∈ NC, p ∈ s.players)
    (h4 : ∀ p ∈ NQ, p ∉ NC)
    (h5 : ∀ p ∈ NQ, ∀ j, j ≠ i → p ∉ s.courts.getD j [])
    (h6 : ∀ p ∈ NC, ∀ j, j ≠ i → p ∉ s.courts.getD j [])
    (h7 : NC.length = 0 ∨ NC.length = 3 ∨ NC.length = 4)
    (h8 : NC.length = 4 → NC.Nodup) :
    SafeInv cfg
      { s with
          courts := s.courts.set i NC
          queue := NQ
          streaks := g
          history := hist } := by
  refine ⟨h.playersND, h1, ?_, h2, ?_, ?_, ?_, ?_, ?_⟩
  · simpa using h.courtsLen
  · intro j p hp
    dsimp only at hp
    by_cases hij : j = i
    · subst hij
      rw [getD_set_self _ _ _ hii] at hp
      exact h3 p hp
    · rw [getD_set_ne _ _ _ _ (fun he => hij he.symm)] at hp
      exact h.courtSub j p hp
  · intro p hp j
    dsimp only at hp ⊢
    by_cases hij : j = i
    · subst hij
      rw [getD_set_self _ _ _ hii]
      exact h4 p hp
    · rw [getD_set_ne _ _ _ _ (fun he => hij he.symm)]
      exact h5 p hp j hij
  · intro j j' hjj' p hp
    dsimp only at hp ⊢
    by_cases hji : j = i
    · subst hji
      rw [getD_set_self _ _ _ hii] at hp
      have hj'i : j' ≠ j := fun he => hjj' he.symm
      rw [getD_set_ne _ _ _ _ (fun he => hj'i he.symm)]
      exact h6 p hp j' (fun he => hjj' he.symm)
    · rw [getD_set_ne _ _ _ _ (fun he => hji he.symm)] at hp
      by_cases hj'i : j' = i
      · subst hj'i
        rw [getD_set_self _ _ _ hii]
        intro hpn
        exact h6 p hpn j hji hp
      · rw [getD_set_ne _ _ _ _ (fun he => hj'i he.symm)]
        exact h.courtsDisj j j' hjj' p hp
  · intro j hj
    dsimp only at hj ⊢
    by_cases hij : j = i
    · subst hij
      rw [getD_set_self _ _ _ hii] at hj ⊢
      exact h8 hj
    · rw [getD_set_ne _ _ _ _ (fun he => hij he.symm)] at hj ⊢
      exact h.fullND j hj
  · intro j
    dsimp only
    by_cases hij : j = i
    · subst hij
      rw [getD_set_self _ _ _ hii]
      exact h7
    · rw [getD_set_ne _ _ _ _ (fun he => hij he.symm)]
      exact h.lenOK j

theorem assignCourt_safeInv {cfg : Config} {s : AppState} (h : SafeInv cfg s)
    (i : Nat) (hii : i < s.courts.length) (hq : 4 ≤ s.queue.length) :
    SafeInv cfg (assignCourt s i) := by
  have hdisj : (s.queue.take 4).Disjoint (s.queue.drop 4) :=
    List.disjoint_take_drop h.queueND (Nat.le_refl 4)
  have ha1 : (s.queue.drop 4).Nodup := h.queueND.sublist (List.drop_sublist 4 _)
  have ha2 : ∀ p ∈ s.queue.drop 4, p ∈ s.players := fun p hp =>
    h.queueSub p ((List.drop_sublist 4 _).mem hp)
  have ha3 : ∀ p ∈ s.queue.take 4, p ∈ s.players := fun p hp =>
    h.queueSub p ((List.take_sublist 4 _).mem hp)
  have ha4 : ∀ p ∈ s.queue.drop 4, p ∉ s.queue.take 4 := fun p hp hpt => hdisj hpt hp
  have ha5 : ∀ p ∈ s.queue.drop 4, ∀ j, j ≠ i → p ∉ s.courts.getD j [] :=
    fun p hp j _ => h.disj p ((List.drop_sublist 4 _).mem hp) j
  have ha6 : ∀ p ∈ s.queue.take 4, ∀ j, j ≠ i → p ∉ s.courts.getD j [] :=
    fun p hp j _ => h.disj p ((List.take_sublist 4 _).mem hp) j
  have ha7 : (s.queue.take 4).length = 0 ∨ (s.queue.take 4).length = 3 ∨
      (s.queue.take 4).length = 4 := by
    right; right
    simp only [List.length_take]
    omega
  have ha8 : (s.queue.take 4).length = 4 → (s.queue.take 4).Nodup := fun _ =>
    h.queueND.sublist (List.take_sublist 4 _)
  exact safeInv_update h i hii (s.queue.take 4) (s.queue.drop 4)
    (setStreaks s.streaks 1 (s.queue.take 4)) s.history
    ha1 ha2 ha3 ha4 ha5 ha6 ha7 ha8

theorem fillAux_safeInv {cfg : Config} : ∀ (n : Nat) (s : AppState) (i : Nat),
    SafeInv cfg s → i + n ≤ s.courts.length → SafeInv cfg (fillAux s i n)
  | 0, s, i, h, _ => h
  | n + 1, s, i, h, hin => by
    rw [fillAux]
    split
    · exact h
    · rename_i h4
      have hii : i < s.courts.length := by omega
      refine fillAux_safeInv n (assignCourt s i) (i + 1)
        (assignCourt_safeInv h i hii (by omega)) ?_
      simp only [assignCourt, List.length_set]
      omega

theorem addPlayer_safeInv {cfg : Config} {s : AppState} (h : SafeInv cfg s)
    (name : Player) : SafeInv cfg (addPlayer cfg s name) := by
  rw [addPlayer]
  split
  · exact h
  · split
    · rename_i hcond
      refine ⟨?_, ?_, by simpa using h.courtsLen, ?_, ?_, ?_, ?_, ?_, ?_⟩
      · simp only [List.nodup_append, List.nodup_cons]
        exact ⟨h.playersND, by simp, by
          intro p hp hmem
          simp only [List.mem_singleton] at hmem
          exact hcond.2 (hmem ▸ hp)⟩
      · simp only [List.nodup_append, List.nodup_cons]
        exact ⟨h.queueND, by simp, by
          intro p hp hmem
          simp only [List.mem_singleton] at hmem
          exact hcond.2 (hmem ▸ h.queueSub p hp)⟩
      · intro p hp
        dsimp only at hp ⊢
        rcases List.mem_append.mp hp with h' | h'
        · exact List.mem_append_left _ (h.queueSub p h')
        · exact List.mem_append_right _ h'
      · intro j p hp
        dsimp only at hp ⊢
        exact List.mem_append_left _ (h.courtSub j p hp)
      · intro p hp j
        dsimp only at hp ⊢
        rcases List.mem_append.mp hp with h' | h'
        · exact h.disj p h' j
        · simp only [List.mem_singleton] at h'
          subst h'
          intro hmem
          exact hcond.2 (h.courtSub j p hmem)
      · intro j j' hjj' p hp
        exact h.courtsDisj j j' hjj' p hp
      · exact h.fullND
      · exact h.lenOK
    · exact h

theorem initializeQueue_safeInv {cfg : Config} {s : AppState} (h : SafeInv cfg s)
    (newQ : List Player) (hperm : newQ.Perm s.players)
    (hempty : ∀ c ∈ s.courts, c = []) : SafeInv cfg (initializeQueue s newQ) := by
  have hcourt : ∀ j, s.courts.getD j [] = [] := by
    intro j
    rcases Nat.lt_or_ge j s.courts.length with hl | hl
    · exact hempty _ (getD_mem_of_lt _ _ _ hl)
    · exact List.getD_eq_default _ _ hl
  rw [initializeQueue]
  split
  · exact h
  · refine ⟨h.playersND, hperm.nodup_iff.mpr h.playersND, by simpa using h.courtsLen,
      ?_, ?_, ?_, ?_, ?_, ?_⟩
    · intro p hp
      dsimp only at hp ⊢
      exact hperm.mem_iff.mp hp
    · intro j p hp
      exact h.courtSub j p hp
    · intro p hp j
      dsimp only at hp ⊢
      rw [hcourt j]
      exact List.not_mem_nil p
    · intro j j' hjj' p hp
      dsimp only at hp ⊢
      rw [hcourt j] at hp
      exact absurd hp (List.not_mem_nil p)
    · intro j hj
      dsimp only at hj ⊢
      rw [hcourt j] at hj ⊢
      exact List.nodup_nil
    · intro j
      dsimp only
      rw [hcourt j]
      left
      rfl

theorem exists_cons2 {α : Type} (l : List α) (h : 2 ≤ l.length) :
    ∃ a b r, l = a :: b :: r := by
  match l, h with
  | a :: b :: r, _ => exact ⟨a, b, r, rfl⟩

/-- Preservation when a processed court is emptied and some of its occupants
are appended behind the queue. -/
theorem safeInv_rotate_all {cfg : Config} {s : AppState} (h : SafeInv cfg s)
    (i : Nat) (hii : i < s.courts.length) (extra : List Player)
    (g : Player → Nat) (hist : List MatchRecord)
    (hnd : extra.Nodup) (hsub : ∀ p ∈ extra, p ∈ s.courts.getD i []) :
    SafeInv cfg
      { s with
          courts := s.courts.set i []
          queue := s.queue ++ extra
          streaks := g
          history := hist } := by
  have hqe : ∀ p ∈ s.queue, p ∉ extra := fun p hp hpe => h.disj p hp i (hsub p hpe)
  refine safeInv_update h i hii [] (s.queue ++ extra) g hist ?_ ?_ ?_ ?_ ?_ ?_ ?_ ?_
  · rw [List.nodup_append]
    exact ⟨h.queueND, hnd, hqe⟩
  · intro p hp
    rcases List.mem_append.mp hp with h' | h'
    · exact h.queueSub p h'
    · exact h.courtSub i p (hsub p h')
  · intro p hp
    exact absurd hp (List.not_mem_nil p)
  · intro p _
    exact List.not_mem_nil p
  · intro p hp j hj
    rcases List.mem_append.mp hp with h' | h'
    · exact h.disj p h' j
    · exact h.courtsDisj i j (fun he => hj he.symm) p (hsub p h')
  · intro p hp
    exact absurd hp (List.not_mem_nil p)
  · left
    rfl
  · intro habs
    simp at habs

/-- Core of `SafeInv` preservation by a successful `process_court_result`,
with the winner and loser pairs abstracted so both teams share one proof. -/
theorem process_safeInv_aux {cfg : Config} {s : AppState} (h : SafeInv cfg s)
    (i : Nat) (t : Team) (hii : i < s.courts.length)
    (w1 w2 l1 l2 : Player)
    (hW : winnersOf (s.courts.getD i []) t = [w1, w2])
    (hL : losersOf (s.courts.getD i []) t = [l1, l2])
    (hperm : ([w1, w2, l1, l2] : List Player).Perm (s.courts.getD i []))
    (h4 : ¬(s.courts.getD i []).length < 4) :
    SafeInv cfg (processCourtResult s i t).1 := by
  have hlen : (s.courts.getD i []).length = 4 := by
    rcases h.lenOK i with h0 | h0 | h0 <;> omega
  have hndc : (s.courts.getD i []).Nodup := h.fullND i hlen
  have hnd4 : ([w1, w2, l1, l2] : List Player).Nodup := hperm.nodup_iff.mpr hndc
  have hw12 : w1 ≠ w2 := fun he => by simp [he] at hnd4
  have hw1l1 : w1 ≠ l1 := fun he => by simp [he] at hnd4
  have hw1l2 : w1 ≠ l2 := fun he => by simp [he] at hnd4
  have hw2l1 : w2 ≠ l1 := fun he => by simp [he] at hnd4
  have hw2l2 : w2 ≠ l2 := fun he => by simp [he] at hnd4
  have hl12 : l1 ≠ l2 := fun he => by simp [he] at hnd4
  have hmem : ∀ p ∈ ([w1, w2, l1, l2] : List Player), p ∈ s.courts.getD i [] :=
    fun p hp => hperm.mem_iff.mp hp
  have hw1c : w1 ∈ s.courts.getD i [] := hmem w1 (by simp)
  have hw2c : w2 ∈ s.courts.getD i [] := hmem w2 (by simp)
  have hl1c : l1 ∈ s.courts.getD i [] := hmem l1 (by simp)
  have hl2c : l2 ∈ s.courts.getD i [] := hmem l2 (by simp)
  have hqn : ∀ p ∈ s.queue, p ≠ w1 ∧ p ≠ w2 ∧ p ≠ l1 ∧ p ≠ l2 := by
    intro p hp
    have hd := h.disj p hp i
    exact ⟨fun he => hd (he.symm ▸ hw1c), fun he => hd (he.symm ▸ hw2c),
      fun he => hd (he.symm ▸ hl1c), fun he => hd (he.symm ▸ hl2c)⟩
  have hcj : ∀ p, p ∈ s.courts.getD i [] → ∀ j, j ≠ i → p ∉ s.courts.getD j [] :=
    fun p hp j hj => h.courtsDisj i j (fun he => hj he.symm) p hp
  have hsubp : ∀ p, p ∈ s.courts.getD i [] → p ∈ s.players := h.courtSub i
  have hacc : resultAcc s i t =
      (if zeroStreaks (bumpStreaks s.streaks [w1, w2]) [l1, l2] w1 < 3 then
        if zeroStreaks (bumpStreaks s.streaks [w1, w2]) [l1, l2] w2 < 3 then
          ⟨[] ++ [w1, w2], zeroStreaks (bumpStreaks s.streaks [w1, w2]) [l1, l2],
            s.queue⟩
        else
          ⟨[] ++ [w1],
            fun p => if p = w2 then 0
              else zeroStreaks (bumpStreaks s.streaks [w1, w2]) [l1, l2] p,
            s.queue ++ [w2]⟩
      else
        if zeroStreaks (bumpStreaks s.streaks [w1, w2]) [l1, l2] w2 < 3 then
          ⟨[] ++ [w2],
            fun p => if p = w1 then 0
              else zeroStreaks (bumpStreaks s.streaks [w1, w2]) [l1, l2] p,
            s.queue ++ [w1]⟩
        else
          ⟨[],
            fun p => if p = w2 then 0 else if p = w1 then 0
              else zeroStreaks (bumpStreaks s.streaks [w1, w2]) [l1, l2] p,
            s.queue ++ [w1, w2]⟩) := by
    rw [resultAcc, hW, hL]
    exact stayLoop_pair [] _ s.queue w1 w2 hw12
  rw [processCourtResult_ok s i t h4, hL]
  by_cases hb1 : zeroStreaks (bumpStreaks s.streaks [w1, w2]) [l1, l2] w1 < 3
  · by_cases hb2 : zeroStreaks (bumpStreaks s.streaks [w1, w2]) [l1, l2] w2 < 3
    · -- both winners stay
      have haccTT : resultAcc s i t =
          ⟨[w1, w2], zeroStreaks (bumpStreaks s.streaks [w1, w2]) [l1, l2],
            s.queue⟩ := by
        rw [hacc, if_pos hb1, if_pos hb2]
        rfl
      by_cases hq3 : 3 ≤ s.queue.length
      · obtain ⟨q1, q2, qr, hqeq⟩ := exists_cons2 s.queue (by omega)
        have hq3' : 3 ≤ (q1 :: q2 :: qr).length := by
          rw [← hqeq]
          exact hq3
        have hpair : resultPair s i t = ([w1, q1, q2, w2], qr) := by
          rw [resultPair, haccTT]
          dsimp only
          rw [hqeq, if_pos (show ([w1, w2] : List Player).length = 2 from rfl),
            if_pos hq3']
          rfl
        have hqnd : (q1 :: q2 :: qr).Nodup := hqeq ▸ h.queueND
        have hq1q2 : q1 ≠ q2 := by simp [List.nodup_cons] at hqnd; tauto
        have hq1r : q1 ∉ qr := by simp [List.nodup_cons] at hqnd; tauto
        have hq2r : q2 ∉ qr := by simp [List.nodup_cons] at hqnd; tauto
        have hqrnd : qr.Nodup := by simp [List.nodup_cons] at hqnd; tauto
        have hq1mem : q1 ∈ s.queue := by rw [hqeq]; simp
        have hq2mem : q2 ∈ s.queue := by rw [hqeq]; simp
        have hqrsub : ∀ p ∈ qr, p ∈ s.queue := by
          intro p hp
          rw [hqeq]
          exact List.mem_cons_of_mem _ (List.mem_cons_of_mem _ hp)
        rw [hpair]
        refine safeInv_update h i hii [w1, q1, q2, w2] (qr ++ [l1, l2])
          (resultAcc s i t).streaks _ ?_ ?_ ?_ ?_ ?_ ?_ ?_ ?_
        · rw [List.nodup_append]
          refine ⟨hqrnd, by simp [hl12], ?_⟩
          intro p hp1 hp2
          have := hqn p (hqrsub p hp1)
          simp only [List.mem_cons, List.not_mem_nil, or_false] at hp2
          rcases hp2 with he | he
          · exact this.2.2.1 he
          · exact this.2.2.2 he
        · intro p hp
          rcases List.mem_append.mp hp with h' | h'
          · exact h.queueSub p (hqrsub p h')
          · simp only [List.mem_cons, List.not_mem_nil, or_false] at h'
            rcases h' with he | he
            · exact he ▸ hsubp l1 hl1c
            · exact he ▸ hsubp l2 hl2c
        · intro p hp
          simp only [List.mem_cons, List.not_mem_nil, or_false] at hp
          rcases hp with he | he | he | he
          · exact he ▸ hsubp w1 hw1c
          · exact he ▸ h.queueSub q1 hq1mem
          · exact he ▸ h.queueSub q2 hq2mem
          · exact he ▸ hsubp w2 hw2c
        · intro p hp
          simp only [List.mem_cons, List.not_mem_nil, or_false, not_or]
          rcases List.mem_append.mp hp with h' | h'
          · have hn := hqn p (hqrsub p h')
            refine ⟨hn.1, ?_, ?_, hn.2.1⟩
            · intro he
              exact hq1r (he ▸ h')
            · intro he
              exact hq2r (he ▸ h')
          · simp only [List.mem_cons, List.not_mem_nil, or_false] at h'
            have hq1n := hqn q1 hq1mem
            have hq2n := hqn q2 hq2mem
            rcases h' with he | he <;> subst he
            · exact ⟨fun he => hw1l1 he.symm, fun he => hq1n.2.2.1 he.symm,
                fun he => hq2n.2.2.1 he.symm, fun he => hw2l1 he.symm⟩
            · exact ⟨fun he => hw1l2 he.symm, fun he => hq1n.2.2.2 he.symm,
                fun he => hq2n.2.2.2 he.symm, fun he => hw2l2 he.symm⟩
        · intro p hp j hj
          rcases List.mem_append.mp hp with h' | h'
          · exact h.disj p (hqrsub p h') j
          · simp only [List.mem_cons, List.not_mem_nil, or_false] at h'
            rcases h' with he | he
            · exact he ▸ hcj l1 hl1c j hj
            · exact he ▸ hcj l2 hl2c j hj
        · intro p hp j hj
          simp only [List.mem_cons, List.not_mem_nil, or_false] at hp
          rcases hp with he | he | he | he
          · exact he ▸ hcj w1 hw1c j hj
          · exact he ▸ h.disj q1 hq1mem j
          · exact he ▸ h.disj q2 hq2mem j
          · exact he ▸ hcj w2 hw2c j hj
        · right; right; rfl
        · intro _
          have hq1n := hqn q1 hq1mem
          have hq2n := hqn q2 hq2mem
          refine List.nodup_cons.mpr ⟨?_, List.nodup_cons.mpr ⟨?_,
            List.nodup_cons.mpr ⟨?_, List.nodup_singleton _⟩⟩⟩
          · simp only [List.mem_cons, List.not_mem_nil, or_false, not_or]
            exact ⟨fun he => hq1n.1 he.symm, fun he => hq2n.1 he.symm, hw12⟩
          · simp only [List.mem_cons, List.not_mem_nil, or_false, not_or]
            exact ⟨hq1q2, fun he => hq1n.2.1 he⟩
          · simp only [List.mem_singleton]
            exact fun he => hq2n.2.1 he
      · -- both stay but the queue is short: the duplicated three-man court
        have hpair : resultPair s i t = ([w1, w1, w2], s.queue) := by
          rw [resultPair, haccTT]
          dsimp only
          rw [if_pos (show ([w1, w2] : List Player).length = 2 from rfl), if_neg hq3]
          rfl
        rw [hpair]
        refine safeInv_update h i hii [w1, w1, w2] (s.queue ++ [l1, l2])
          (resultAcc s i t).streaks _ ?_ ?_ ?_ ?_ ?_ ?_ ?_ ?_
        · rw [List.nodup_append]
          refine ⟨h.queueND, by simp [hl12], ?_⟩
          intro p hp1 hp2
          have := hqn p hp1
          simp only [List.mem_cons, List.not_mem_nil, or_false] at hp2
          rcases hp2 with he | he
          · exact this.2.2.1 he
          · exact this.2.2.2 he
        · intro p hp
          rcases List.mem_append.mp hp with h' | h'
          · exact h.queueSub p h'
          · simp only [List.mem_cons, List.not_mem_nil, or_false] at h'
            rcases h' with he | he
            · exact he ▸ hsubp l1 hl1c
            · exact he ▸ hsubp l2 hl2c
        · intro p hp
          simp only [List.mem_cons, List.not_mem_nil, or_false] at hp
          rcases hp with he | he | he
          · exact he ▸ hsubp w1 hw1c
          · exact he ▸ hsubp w1 hw1c
          · exact he ▸ hsubp w2 hw2c
        · intro p hp
          simp only [List.mem_cons, List.not_mem_nil, or_false, not_or]
          rcases List.mem_append.mp hp with h' | h'
          · have hn := hqn p h'
            exact ⟨hn.1, hn.1, hn.2.1⟩
          · simp only [List.mem_cons, List.not_mem_nil, or_false] at h'
            rcases h' with he | he <;> subst he
            · exact ⟨fun he => hw1l1 he.symm, fun he => hw1l1 he.symm,
                fun he => hw2l1 he.symm⟩
            · exact ⟨fun he => hw1l2 he.symm, fun he => hw1l2 he.symm,
                fun he => hw2l2 he.symm⟩
        · intro p hp j hj
          rcases List.mem_append.mp hp with h' | h'
          · exact h.disj p h' j
          · simp only [List.mem_cons, List.not_mem_nil, or_false] at h'
            rcases h' with he | he
            · exact he ▸ hcj l1 hl1c j hj
            · exact he ▸ hcj l2 hl2c j hj
        · intro p hp j hj
          simp only [List.mem_cons, List.not_mem_nil, or_false] at hp
          rcases hp with he | he | he
          · exact he ▸ hcj w1 hw1c j hj
          · exact he ▸ hcj w1 hw1c j hj
          · exact he ▸ hcj w2 hw2c j hj
        · right; left; rfl
        · intro habs
          simp at habs
    · -- w2 reaches the cap, w1 stays: court emptied
      have haccTF : resultAcc s i t =
          ⟨[w1],
            fun p => if p = w2 then 0
              else zeroStreaks (bumpStreaks s.streaks [w1, w2]) [l1, l2] p,
            s.queue ++ [w2]⟩ := by
        rw [hacc, if_pos hb1, if_neg hb2]
        rfl
      have hpair : resultPair s i t = ([], s.queue ++ [w2]) := by
        rw [resultPair, haccTF]
        dsimp only
        rw [if_neg (by simp)]
      rw [hpair, List.append_assoc]
      exact safeInv_rotate_all h i hii ([w2] ++ [l1, l2]) _ _
        (by simp [hw2l1, hw2l2, hl12])
        (by
          intro p hp
          simp only [List.cons_append, List.nil_append, List.mem_cons,
            List.not_mem_nil, or_false] at hp
          rcases hp with he | he | he
          · exact he ▸ hw2c
          · exact he ▸ hl1c
          · exact he ▸ hl2c)
  · by_cases hb2 : zeroStreaks (bumpStreaks s.streaks [w1, w2]) [l1, l2] w2 < 3
    · -- w1 reaches the cap, w2 stays: court emptied
      have haccFT : resultAcc s i t =
          ⟨[w2],
            fun p => if p = w1 then 0
              else zeroStreaks (bumpStreaks s.streaks [w1, w2]) [l1, l2] p,
            s.queue ++ [w1]⟩ := by
        rw [hacc, if_neg hb1, if_pos hb2]
        rfl
      have hpair : resultPair s i t = ([], s.queue ++ [w1]) := by
        rw [resultPair, haccFT]
        dsimp only
        rw [if_neg (by simp)]
      rw [hpair, List.append_assoc]
      exact safeInv_rotate_all h i hii ([w1] ++ [l1, l2]) _ _
        (by simp [hw1l1, hw1l2, hl12])
        (by
          intro p hp
          simp only [List.cons_append, List.nil_append, List.mem_cons,
            List.not_mem_nil, or_false] at hp
          rcases hp with he | he | he
          · exact he ▸ hw1c
          · exact he ▸ hl1c
          · exact he ▸ hl2c)
    · -- both winners rotate out: court emptied
      have haccFF : resultAcc s i t =
          ⟨[],
            fun p => if p = w2 then 0 else if p = w1 then 0
              else zeroStreaks (bumpStreaks s.streaks [w1, w2]) [l1, l2] p,
            s.queue ++ [w1, w2]⟩ := by
        rw [hacc, if_neg hb1, if_neg hb2]
      have hpair : resultPair s i t = ([], s.queue ++ [w1, w2]) := by
        rw [resultPair, haccFF]
        dsimp only
        rw [if_neg (by simp)]
      rw [hpair, List.append_assoc]
      exact safeInv_rotate_all h i hii ([w1, w2] ++ [l1, l2]) _ _
        (by simp [hw12, hw1l1, hw1l2, hw2l1, hw2l2, hl12])
        (by
          intro p hp
          simp only [List.cons_append, List.nil_append, List.mem_cons,
            List.not_mem_nil, or_false] at hp
          rcases hp with he | he | he | he
          · exact he ▸ hw1c
          · exact he ▸ hw2c
          · exact he ▸ hl1c
          · exact he ▸ hl2c)

theorem process_safeInv {cfg : Config} {s : AppState} (h : SafeInv cfg s) (i : Nat)
    (t : Team) (hi : i < cfg.numCourts) (hok : (processCourtResult s i t).2 = true) :
    SafeInv cfg (processCourtResult s i t).1 := by
  have hii : i < s.courts.length := by
    rw [h.courtsLen]
    exact hi
  by_cases h4 : (s.courts.getD i []).length < 4
  · rw [processCourtResult_fail s i t h4] at hok
    simp at hok
  · have hlen : (s.courts.getD i []).length = 4 := by
      rcases h.lenOK i with h0 | h0 | h0 <;> omega
    obtain ⟨c0, c1, c2, c3, hc⟩ := length_eq_four _ hlen
    cases t with
    | team1 =>
      refine process_safeInv_aux h i .team1 hii c0 c1 c2 c3 ?_ ?_ ?_ h4
      · rw [hc]
        rfl
      · rw [hc]
        rfl
      · rw [hc]
    | team2 =>
      refine process_safeInv_aux h i .team2 hii c2 c3 c0 c1 ?_ ?_ ?_ h4
      · rw [hc]
        rfl
      · rw [hc]
        rfl
      · rw [hc]
        have hpc : (([c2, c3] ++ [c0, c1]) : List Player).Perm ([c0, c1] ++ [c2, c3]) :=
          List.perm_append_comm
        simpa using hpc

theorem safeStep_safeInv {cfg : Config} {s s' : AppState} (hstep : SafeStep cfg s s')
    (h : SafeInv cfg s) : SafeInv cfg s' := by
  cases hstep with
  | add name => exact addPlayer_safeInv h name
  | shuffle newQ hperm hempty => exact initializeQueue_safeInv h newQ hperm hempty
  | fill => exact fillAux_safeInv cfg.numCourts s 0 h (by rw [h.courtsLen]; omega)
  | process i t hi hok => exact process_safeInv h i t hi hok
  | reset => exact safeInv_init cfg

theorem safeInv_reachableSafe {cfg : Config} {s : AppState} (h : ReachableSafe cfg s) :
    SafeInv cfg s := by
  induction h with
  | refl => exact safeInv_init cfg
  | tail hsteps hstep ih => exact safeStep_safeInv hstep ih

/-! ### Concrete configurations and traces -/

/-- The source defaults: `DEFAULT_MAX_PLAYERS = 20`, `DEFAULT_NUM_COURTS = 3`. -/
def cfgDefault : Config := ⟨20, 3⟩

/-- A one-court configuration (the slider allows 1..5 courts). -/
def cfgOne : Config := ⟨20, 1⟩

/-- A two-court configuration. -/
def cfgTwo : Config := ⟨20, 2⟩

/-- Add a list of players one by one through the Add-Player handler. -/
def addNames (cfg : Config) (s : AppState) : List Player → AppState
  | [] => s
  | n :: ns => addNames cfg (addPlayer cfg s n) ns

theorem reachable_init (cfg : Config) : Reachable cfg (initState cfg) :=
  Relation.ReflTransGen.refl

theorem reachable_tail {cfg : Config} {s s' : AppState} (h : Reachable cfg s)
    (hs : Step cfg s s') : Reachable cfg s' :=
  Relation.ReflTransGen.tail h hs

theorem reachableSafe_init (cfg : Config) : ReachableSafe cfg (initState cfg) :=
  Relation.ReflTransGen.refl

theorem reachableSafe_tail {cfg : Config} {s s' : AppState} (h : ReachableSafe cfg s)
    (hs : SafeStep cfg s s') : ReachableSafe cfg s' :=
  Relation.ReflTransGen.tail h hs

theorem reachable_addNames {cfg : Config} {s : AppState} (h : Reachable cfg s) :
    ∀ ns, Reachable cfg (addNames cfg s ns)
  | [] => h
  | n :: ns => reachable_addNames (reachable_tail h (Step.add s n)) ns

theorem reachableSafe_addNames {cfg : Config} {s : AppState} (h : ReachableSafe cfg s) :
    ∀ ns, ReachableSafe cfg (addNames cfg s ns)
  | [] => h
  | n :: ns => reachableSafe_addNames (reachableSafe_tail h (SafeStep.add s n)) ns

/-- Trace A: four players under the default config, courts filled once. -/
def stateA0 : AppState := addNames cfgDefault (initState cfgDefault) ["a", "b", "c", "d"]

def stateA1 : AppState := assignAllCourts cfgDefault stateA0

/-- Trace A after `process_result(0, Team 1)` with an empty queue. -/
def stateA2 : AppState := (processCourtResult stateA1 0 .team1).1

/-- Trace A after `initialize_queue` while court 0 is still occupied. -/
def stateA3 : AppState := initializeQueue stateA1 stateA1.players

theorem stateA0_reachable : Reachable cfgDefault stateA0 :=
  reachable_addNames (reachable_init cfgDefault) _

theorem stateA1_reachable : Reachable cfgDefault stateA1 :=
  reachable_tail stateA0_reachable (Step.fill stateA0)

theorem stateA2_reachable : Reachable cfgDefault stateA2 :=
  reachable_tail stateA1_reachable
    (Step.process stateA1 0 .team1 (by decide) (by decide))

theorem stateA3_reachable : Reachable cfgDefault stateA3 :=
  reachable_tail stateA1_reachable
    (Step.shuffle stateA1 stateA1.players (List.Perm.refl _))

/-- Trace B: seven players on a single court. -/
def stateB0 : AppState :=
  addNames cfgOne (initState cfgOne) ["a", "b", "c", "d", "e", "f", "g"]

def stateB1 : AppState := assignAllCourts cfgOne stateB0

/-- Trace B after Team 1 wins: `e` and `f` are dequeued onto the court. -/
def stateB2 : AppState := (processCourtResult stateB1 0 .team1).1

theorem stateB1_reachable : Reachable cfgOne stateB1 :=
  reachable_tail (reachable_addNames (reachable_init cfgOne) _) (Step.fill stateB0)

theorem stateB2_reachable : Reachable cfgOne stateB2 :=
  reachable_tail stateB1_reachable
    (Step.process stateB1 0 .team1 (by decide) (by decide))

/-- Trace C: six players, two courts, a mid-play queue re-shuffle, leading to
a state where `a` sits on both courts and finally on an untouched court. -/
def stateC0 : AppState :=
  addNames cfgTwo (initState cfgTwo) ["a", "b", "c", "d", "e", "f"]

def stateC1 : AppState := assignAllCourts cfgTwo stateC0

def stateC2 : AppState := initializeQueue stateC1 ["e", "f", "a", "b", "c", "d"]

def stateC3 : AppState := (processCourtResult stateC2 0 .team2).1

def stateC4 : AppState := (processCourtResult stateC3 0 .team2).1

def stateC5 : AppState := assignAllCourts cfgTwo stateC4

def stateC6 : AppState := (processCourtResult stateC5 0 .team1).1

def stateC7 : AppState := addPlayer cfgTwo stateC6 "g"

theorem stateC7_reachable : Reachable cfgTwo stateC7 :=
  reachable_tail
    (reachable_tail
      (reachable_tail
        (reachable_tail
          (reachable_tail
            (reachable_tail
              (reachable_tail (reachable_addNames (reachable_init cfgTwo) _)
                (Step.fill stateC0))
              (Step.shuffle stateC1 ["e", "f", "a", "b", "c", "d"] (by decide)))
            (Step.process stateC2 0 .team2 (by decide) (by decide)))
          (Step.process stateC3 0 .team2 (by decide) (by decide)))
        (Step.fill stateC4))
      (Step.process stateC5 0 .team1 (by decide) (by decide)))
    (Step.add stateC6 "g")

/-- Trace D: eight players on one court; the court is full and the queue
still holds four players. -/
def stateD0 : AppState :=
  addNames cfgOne (initState cfgOne) ["a", "b", "c", "d", "e", "f", "g", "h"]

def stateD1 : AppState := assignAllCourts cfgOne stateD0

/-! ### Pointwise evaluation lemmas for the reseed branches -/

theorem bumpStreaks_pair (g : Player → Nat) (w1 w2 : Player) (hne : w1 ≠ w2) :
    bumpStreaks g [w1, w2] w1 = g w1 + 1 ∧ bumpStreaks g [w1, w2] w2 = g w2 + 1 := by
  constructor
  · rw [bumpStreaks, bumpStreaks, bumpStreaks]
    simp [hne]
  · rw [bumpStreaks, bumpStreaks, bumpStreaks]
    simp [hne, hne.symm]

theorem lt_length_of_getD_ne_nil (l : List (List Player)) (i : Nat)
    (h : l.getD i [] ≠ []) : i < l.length := by
  by_contra h'
  rw [List.getD_eq_default _ _ (Nat.le_of_not_lt h')] at h
  exact h rfl

/-- A player on neither team of the processed court keeps their streak. -/
theorem process_streaks_untouched (s : AppState) (i : Nat) (t : Team) (p : Player)
    (h4 : ¬(s.courts.getD i []).length < 4)
    (hpw : p ∉ winnersOf (s.courts.getD i []) t)
    (hpl : p ∉ losersOf (s.courts.getD i []) t) :
    (processCourtResult s i t).1.streaks p = s.streaks p := by
  rw [processCourtResult_ok s i t h4]
  dsimp only
  rw [resultAcc, stayLoop_streaks_not_mem _ _ _ hpw]
  dsimp only
  rw [zeroStreaks_not_mem _ _ _ hpl, bumpStreaks_not_mem _ _ _ hpw]

/-- Reseed when both winners stay and the queue holds at least three players:
the new court is `[w1, q1, q2, w2]` and the two losers join behind `qr`. -/
theorem process_TT_long_aux (s : AppState) (i : Nat) (t : Team)
    (w1 w2 q1 q2 : Player) (qr L : List Player)
    (hW : winnersOf (s.courts.getD i []) t = [w1, w2])
    (hL : losersOf (s.courts.getD i []) t = L)
    (hndWL : (([w1, w2] ++ L) : List Player).Nodup)
    (h4 : ¬(s.courts.getD i []).length < 4)
    (hii : i < s.courts.length)
    (hs1 : s.streaks w1 + 1 < 3) (hs2 : s.streaks w2 + 1 < 3)
    (hqeq : s.queue = q1 :: q2 :: qr) (hq3 : 3 ≤ s.queue.length) :
    (processCourtResult s i t).2 = true ∧
    (processCourtResult s i t).1.courts.getD i [] = [w1, q1, q2, w2] ∧
    (processCourtResult s i t).1.queue = qr ++ L := by
  have hw12 : w1 ≠ w2 := by
    intro he
    simp [he] at hndWL
  have hnw1 : w1 ∉ L := by
    rw [List.nodup_append] at hndWL
    exact fun hm => hndWL.2.2 (by simp) hm
  have hnw2 : w2 ∉ L := by
    rw [List.nodup_append] at hndWL
    exact fun hm => hndWL.2.2 (by simp) hm
  have hG1 : zeroStreaks (bumpStreaks s.streaks [w1, w2]) L w1 = s.streaks w1 + 1 := by
    rw [zeroStreaks_not_mem _ _ _ hnw1, (bumpStreaks_pair s.streaks w1 w2 hw12).1]
  have hG2 : zeroStreaks (bumpStreaks s.streaks [w1, w2]) L w2 = s.streaks w2 + 1 := by
    rw [zeroStreaks_not_mem _ _ _ hnw2, (bumpStreaks_pair s.streaks w1 w2 hw12).2]
  have hacc : resultAcc s i t =
      ⟨[w1, w2], zeroStreaks (bumpStreaks s.streaks [w1, w2]) L, s.queue⟩ := by
    rw [resultAcc, hW, hL, stayLoop_pair [] _ s.queue w1 w2 hw12,
      if_pos (by omega), if_pos (by omega)]
    rfl
  have hq3' : 3 ≤ (q1 :: q2 :: qr).length := by
    rw [← hqeq]
    exact hq3
  have hpair : resultPair s i t = ([w1, q1, q2, w2], qr) := by
    rw [resultPair, hacc]
    dsimp only
    rw [hqeq, if_pos (show ([w1, w2] : List Player).length = 2 from rfl),
      if_pos hq3']
    rfl
  refine ⟨?_, ?_, ?_⟩
  · rw [processCourtResult_ok s i t h4]
  · rw [processCourtResult_ok s i t h4]
    dsimp only
    rw [hpair]
    exact getD_set_self _ _ _ hii
  · rw [processCourtResult_ok s i t h4]
    dsimp only
    rw [hpair, hL]

/-- Every winner whose updated streak reaches the cap is rotated out: streak
reset to 0, off the court (which is emptied), and appended behind the queue. -/
theorem process_rotate_aux (s : AppState) (i : Nat) (t : Team)
    (w1 w2 : Player) (L : List Player)
    (hW : winnersOf (s.courts.getD i []) t = [w1, w2])
    (hL : losersOf (s.courts.getD i []) t = L)
    (hndWL : (([w1, w2] ++ L) : List Player).Nodup)
    (h4 : ¬(s.courts.getD i []).length < 4)
    (hii : i < s.courts.length) :
    ∀ w ∈ ([w1, w2] : List Player), 3 ≤ s.streaks w + 1 →
      (processCourtResult s i t).1.streaks w = 0 ∧
      w ∉ (processCourtResult s i t).1.courts.getD i [] ∧
      ∃ tl, (processCourtResult s i t).1.queue = s.queue ++ tl ∧ w ∈ tl := by
  have hw12 : w1 ≠ w2 := by
    intro he
    simp [he] at hndWL
  have hnw1 : w1 ∉ L := by
    rw [List.nodup_append] at hndWL
    exact fun hm => hndWL.2.2 (by simp) hm
  have hnw2 : w2 ∉ L := by
    rw [List.nodup_append] at hndWL
    exact fun hm => hndWL.2.2 (by simp) hm
  have hG1 : zeroStreaks (bumpStreaks s.streaks [w1, w2]) L w1 = s.streaks w1 + 1 := by
    rw [zeroStreaks_not_mem _ _ _ hnw1, (bumpStreaks_pair s.streaks w1 w2 hw12).1]
  have hG2 : zeroStreaks (bumpStreaks s.streaks [w1, w2]) L w2 = s.streaks w2 + 1 := by
    rw [zeroStreaks_not_mem _ _ _ hnw2, (bumpStreaks_pair s.streaks w1 w2 hw12).2]
  have hacc := stayLoop_pair []
    (zeroStreaks (bumpStreaks s.streaks [w1, w2]) L) s.queue w1 w2 hw12
  intro w hw hcap
  simp only [List.mem_cons, List.not_mem_nil, or_false] at hw
  rcases hw with he | he
  · -- the first winner reaches the cap
    rw [he] at hcap
    rw [he]
    have hb1 : ¬zeroStreaks (bumpStreaks s.streaks [w1, w2]) L w1 < 3 := by omega
    by_cases hb2 : zeroStreaks (bumpStreaks s.streaks [w1, w2]) L w2 < 3
    · have haccFT : resultAcc s i t =
          ⟨[w2],
            fun p => if p = w1 then 0
              else zeroStreaks (bumpStreaks s.streaks [w1, w2]) L p,
            s.queue ++ [w1]⟩ := by
        rw [resultAcc, hW, hL, hacc, if_neg hb1, if_pos hb2]
        rfl
      have hpair : resultPair s i t = ([], s.queue ++ [w1]) := by
        rw [resultPair, haccFT]
        dsimp only
        rw [if_neg (by simp)]
      refine ⟨?_, ?_, ⟨w1 :: L, ?_, by simp⟩⟩
      · rw [processCourtResult_ok s i t h4]
        dsimp only
        rw [haccFT]
        simp
      · rw [processCourtResult_ok s i t h4]
        dsimp only
        rw [hpair, getD_set_self _ _ _ hii]
        exact List.not_mem_nil w1
      · rw [processCourtResult_ok s i t h4]
        dsimp only
        rw [hpair, hL, List.append_assoc]
        rfl
    · have haccFF : resultAcc s i t =
          ⟨[],
            fun p => if p = w2 then 0 else if p = w1 then 0
              else zeroStreaks (bumpStreaks s.streaks [w1, w2]) L p,
            s.queue ++ [w1, w2]⟩ := by
        rw [resultAcc, hW, hL, hacc, if_neg hb1, if_neg hb2]
      have hpair : resultPair s i t = ([], s.queue ++ [w1, w2]) := by
        rw [resultPair, haccFF]
        dsimp only
        rw [if_neg (by simp)]
      refine ⟨?_, ?_, ⟨w1 :: w2 :: L, ?_, by simp⟩⟩
      · rw [processCourtResult_ok s i t h4]
        dsimp only
        rw [haccFF]
        simp [hw12]
      · rw [processCourtResult_ok s i t h4]
        dsimp only
        rw [hpair, getD_set_self _ _ _ hii]
        exact List.not_mem_nil w1
      · rw [processCourtResult_ok s i t h4]
        dsimp only
        rw [hpair, hL, List.append_assoc]
        rfl
  · -- the second winner reaches the cap
    rw [he] at hcap
    rw [he]
    have hb2 : ¬zeroStreaks (bumpStreaks s.streaks [w1, w2]) L w2 < 3 := by omega
    by_cases hb1 : zeroStreaks (bumpStreaks s.streaks [w1, w2]) L w1 < 3
    · have haccTF : resultAcc s i t =
          ⟨[w1],
            fun p => if p = w2 then 0
              else zeroStreaks (bumpStreaks s.streaks [w1, w2]) L p,
            s.queue ++ [w2]⟩ := by
        rw [resultAcc, hW, hL, hacc, if_pos hb1, if_neg hb2]
        rfl
      have hpair : resultPair s i t = ([], s.queue ++ [w2]) := by
        rw [resultPair, haccTF]
        dsimp only
        rw [if_neg (by simp)]
      refine ⟨?_, ?_, ⟨w2 :: L, ?_, by simp⟩⟩
      · rw [processCourtResult_ok s i t h4]
        dsimp only
        rw [haccTF]
        simp
      · rw [processCourtResult_ok s i t h4]
        dsimp only
        rw [hpair, getD_set_self _ _ _ hii]
        exact List.not_mem_nil w2
      · rw [processCourtResult_ok s i t h4]
        dsimp only
        rw [hpair, hL, List.append_assoc]
        rfl
    · have haccFF : resultAcc s i t =
          ⟨[],
            fun p => if p = w2 then 0 else if p = w1 then 0
              else zeroStreaks (bumpStreaks s.streaks [w1, w2]) L p,
            s.queue ++ [w1, w2]⟩ := by
        rw [resultAcc, hW, hL, hacc, if_neg hb1, if_neg hb2]
      have hpair : resultPair s i t = ([], s.queue ++ [w1, w2]) := by
        rw [resultPair, haccFF]
        dsimp only
        rw [if_neg (by simp)]
      refine ⟨?_, ?_, ⟨w1 :: w2 :: L, ?_, by simp⟩⟩
      · rw [processCourtResult_ok s i t h4]
        dsimp only
        rw [haccFF]
        simp
      · rw [processCourtResult_ok s i t h4]
        dsimp only
        rw [hpair, getD_set_self _ _ _ hii]
        exact List.not_mem_nil w2
      · rw [processCourtResult_ok s i t h4]
        dsimp only
        rw [hpair, hL, List.append_assoc]
        rfl

theorem stateB1_reachableSafe : ReachableSafe cfgOne stateB1 :=
  reachableSafe_tail (reachableSafe_addNames (reachableSafe_init cfgOne) _)
    (SafeStep.fill stateB0)

/-! ### Claims -/

/-- C1 (amended): in every reachable state the queue and the courts contain
only rostered players; and in every state reachable without invoking
`initialize_queue` while a court is occupied, the queue and the set of court
occupants are disjoint (the unrestricted claim is refuted by
`c1_counterexample`: `initialize_queue` does not clear the courts). -/
theorem c1_queue_court_disjointness (cfg : Config) (s : AppState) :
    (Reachable cfg s →
      (∀ p ∈ s.queue, p ∈ s.players) ∧
      (∀ j, ∀ p ∈ s.courts.getD j [], p ∈ s.players)) ∧
    (ReachableSafe cfg s →
      (∀ p ∈ s.queue, ∀ j, p ∉ s.courts.getD j []) ∧
      (∀ p ∈ s.queue, p ∈ s.players) ∧
      (∀ j, ∀ p ∈ s.courts.getD j [], p ∈ s.players)) := by
  constructor
  · intro h
    exact subsetInv_reachable h
  · intro h
    have hi := safeInv_reachableSafe h
    exact ⟨hi.disj, hi.queueSub, hi.courtSub⟩

/-- Witness for C1: the amended theorem applied to the reachable state
`stateA3` and to the safely-reachable state `stateB1`. -/
theorem c1_queue_court_disjointness_witness :
    ((∀ p ∈ stateA3.queue, p ∈ stateA3.players) ∧
      (∀ j, ∀ p ∈ stateA3.courts.getD j [], p ∈ stateA3.players)) ∧
    ((∀ p ∈ stateB1.queue, ∀ j, p ∉ stateB1.courts.getD j []) ∧
      (∀ p ∈ stateB1.queue, p ∈ stateB1.players) ∧
      (∀ j, ∀ p ∈ stateB1.courts.getD j [], p ∈ stateB1.players)) :=
  ⟨(c1_queue_court_disjointness cfgDefault stateA3).1 stateA3_reachable,
   (c1_queue_court_disjointness cfgOne stateB1).2 stateB1_reachableSafe⟩

/-- Counterexample for C1 as stated: after filling court 0 with a, b, c, d and
then pressing Initialize Queue, player a is simultaneously in the queue and on
court 0 — `initialize_queue` rebuilds the queue from the full roster without
clearing the courts. -/
theorem c1_counterexample :
    Reachable cfgDefault stateA3 ∧ "a" ∈ stateA3.queue ∧
      "a" ∈ stateA3.courts.getD 0 [] :=
  ⟨stateA3_reachable, by decide, by decide⟩

/-- C2 (amended): every reachable court holds 0, 3 or 4 entries.  The
3-entry case (refuting the claimed 0-or-4 invariant) arises from the
short-queue reseed, which also duplicates `staying[0]`. -/
theorem c2_court_size_invariant (cfg : Config) (s : AppState) (h : Reachable cfg s) :
    ∀ j, (s.courts.getD j []).length = 0 ∨ (s.courts.getD j []).length = 3 ∨
      (s.courts.getD j []).length = 4 :=
  lenInv_reachable h

/-- Witness for C2: the amended theorem applied to the reachable state
`stateA2`, whose court 0 actually holds three entries. -/
theorem c2_court_size_invariant_witness :
    (stateA2.courts.getD 0 []).length = 0 ∨
      (stateA2.courts.getD 0 []).length = 3 ∨
      (stateA2.courts.getD 0 []).length = 4 :=
  c2_court_size_invariant cfgDefault stateA2 stateA2_reachable 0

/-- Counterexample for C2 as stated: processing a result with an empty queue
leaves court 0 with exactly three occupants, neither 0 nor 4. -/
theorem c2_counterexample :
    Reachable cfgDefault stateA2 ∧ (stateA2.courts.getD 0 []).length = 3 ∧
    ¬((stateA2.courts.getD 0 []).length = 0 ∨ (stateA2.courts.getD 0 []).length = 4) :=
  ⟨stateA2_reachable, by decide, by decide⟩

/-- C3 (code bug): with court 0 = [a, b, c, d], all streaks 1 and an empty
queue, both winners stay (`staying = [a, b]`) and the queue holds fewer than
3 players, yet the reseeded court is `[a, a, b]` — the source's
`new_court = [staying[0]]; new_court += staying` appends `staying[0]` twice,
instead of the specified `[staying[0], staying[1]]`. -/
theorem c3_short_queue_reseed_eval :
    Reachable cfgDefault stateA1 ∧
    stateA1.courts.getD 0 [] = ["a", "b", "c", "d"] ∧
    stateA1.queue = [] ∧
    (resultAcc stateA1 0 .team1).staying = ["a", "b"] ∧
    stateA2.courts.getD 0 [] = ["a", "a", "b"] ∧
    stateA2.courts.getD 0 [] ≠ ["a", "b"] :=
  ⟨stateA1_reachable, by decide, by decide, by decide, by decide, by decide⟩

/-- C4: part one — in every reachable state every streak counter is at most 2
(reaching 3 always triggers rotation and an immediate reset, so a streak never
persists at 3 or more between operations); part two — on a duplicate-free full
court, any winner whose incremented streak reaches the cap of 3 is rotated
out: the call succeeds, their streak is reset to 0, they do not occupy the
reseeded court, and they are appended behind the existing queue. -/
theorem c4_streak_cap (cfg : Config) (s : AppState) :
    (Reachable cfg s → ∀ p, s.streaks p ≤ 2) ∧
    (∀ (i : Nat) (t : Team) (c0 c1 c2 c3 : Player),
      s.courts.getD i [] = [c0, c1, c2, c3] →
      ([c0, c1, c2, c3] : List Player).Nodup →
      ∀ w ∈ winnersOf (s.courts.getD i []) t, 3 ≤ s.streaks w + 1 →
        (processCourtResult s i t).2 = true ∧
        (processCourtResult s i t).1.streaks w = 0 ∧
        w ∉ (processCourtResult s i t).1.courts.getD i [] ∧
        ∃ tl, (processCourtResult s i t).1.queue = s.queue ++ tl ∧ w ∈ tl) := by
  constructor
  · intro h
    exact streakInv_reachable h
  · intro i t c0 c1 c2 c3 hc hnd w hw hcap
    have h4 : ¬(s.courts.getD i []).length < 4 := by
      rw [hc]
      simp
    have hii : i < s.courts.length := by
      refine lt_length_of_getD_ne_nil _ _ ?_
      rw [hc]
      simp
    have hok : (processCourtResult s i t).2 = true := by
      rw [processCourtResult_ok s i t h4]
    have hndWL : ((winnersOf (s.courts.getD i []) t ++
        losersOf (s.courts.getD i []) t) : List Player).Nodup :=
      (winners_append_losers_perm _ t).nodup_iff.mpr (by rw [hc]; exact hnd)
    cases t with
    | team1 =>
      have hW : winnersOf (s.courts.getD i []) .team1 = [c0, c1] := by
        rw [hc]
        rfl
      have hL : losersOf (s.courts.getD i []) .team1 = [c2, c3] := by
        rw [hc]
        rfl
      rw [hW] at hw
      rw [hW, hL] at hndWL
      exact ⟨hok,
        process_rotate_aux s i .team1 c0 c1 [c2, c3] hW hL hndWL h4 hii w hw hcap⟩
    | team2 =>
      have hW : winnersOf (s.courts.getD i []) .team2 = [c2, c3] := by
        rw [hc]
        rfl
      have hL : losersOf (s.courts.getD i []) .team2 = [c0, c1] := by
        rw [hc]
        rfl
      rw [hW] at hw
      rw [hW, hL] at hndWL
      exact ⟨hok,
        process_rotate_aux s i .team2 c2 c3 [c0, c1] hW hL hndWL h4 hii w hw hcap⟩

/-- A hand-built state with court 0 = [a, b, c, d] and a's streak already at
2, so one more win reaches the cap. -/
def c4state : AppState :=
  { players := ["a", "b", "c", "d"]
    queue := []
    courts := [["a", "b", "c", "d"]]
    streaks := fun p => if p = "a" then 2 else 1
    history := [] }

/-- Witness for C4: part one at the initial state, part two at `c4state`
where winner a's streak 2 + 1 reaches the cap. -/
theorem c4_streak_cap_witness :
    (∀ p, (initState cfgDefault).streaks p ≤ 2) ∧
    ((processCourtResult c4state 0 .team1).2 = true ∧
      (processCourtResult c4state 0 .team1).1.streaks "a" = 0 ∧
      "a" ∉ (processCourtResult c4state 0 .team1).1.courts.getD 0 [] ∧
      ∃ tl, (processCourtResult c4state 0 .team1).1.queue = c4state.queue ++ tl ∧
        "a" ∈ tl) :=
  ⟨(c4_streak_cap cfgDefault (initState cfgDefault)).1 (reachable_init cfgDefault),
   (c4_streak_cap cfgDefault c4state).2 0 .team1 "a" "b" "c" "d" (by decide)
     (by decide) "a" (by decide) (by decide)⟩

/-- C5: when the court is a duplicate-free foursome, both winners stay
(updated streaks below 3) and the queue holds at least three players, the
reseeded court is `[w1, q1, q2, w2]`: the staying winners anchor positions 0
and 3 and the two dequeued head players fill positions 1 and 2. -/
theorem c5_reseed_split_anchor (s : AppState) (i : Nat) (t : Team)
    (w1 w2 q1 q2 : Player) (qr : List Player)
    (hnd : (s.courts.getD i []).Nodup)
    (hlen : (s.courts.getD i []).length = 4)
    (hW : winnersOf (s.courts.getD i []) t = [w1, w2])
    (hs1 : s.streaks w1 + 1 < 3) (hs2 : s.streaks w2 + 1 < 3)
    (hqeq : s.queue = q1 :: q2 :: qr) (hq3 : 3 ≤ s.queue.length) :
    (processCourtResult s i t).2 = true ∧
    (processCourtResult s i t).1.courts.getD i [] = [w1, q1, q2, w2] := by
  have h4 : ¬(s.courts.getD i []).length < 4 := by omega
  have hii : i < s.courts.length := by
    refine lt_length_of_getD_ne_nil _ _ ?_
    intro he
    rw [he] at hlen
    simp at hlen
  have hndWL : ((winnersOf (s.courts.getD i []) t ++
      losersOf (s.courts.getD i []) t) : List Player).Nodup :=
    (winners_append_losers_perm _ t).nodup_iff.mpr hnd
  rw [hW] at hndWL
  obtain ⟨hok, hcourt, _⟩ := process_TT_long_aux s i t w1 w2 q1 q2 qr
    (losersOf (s.courts.getD i []) t) hW rfl hndWL h4 hii hs1 hs2 hqeq hq3
  exact ⟨hok, hcourt⟩

/-- Witness for C5: court [a, b, c, d] with streaks 1 and queue [e, f, g]
reseeds to [a, e, f, b]. -/
theorem c5_reseed_split_anchor_witness :
    (processCourtResult stateB1 0 .team1).2 = true ∧
    (processCourtResult stateB1 0 .team1).1.courts.getD 0 [] =
      ["a", "e", "f", "b"] :=
  c5_reseed_split_anchor stateB1 0 .team1 "a" "b" "e" "f" ["g"] (by decide)
    (by decide) (by decide) (by decide) (by decide) (by decide) (by decide)

/-- C6: with all courts empty and at least `4 · numCourts` queued players,
`assign_all_courts` dequeues exactly `4 · numCourts` players from the head in
order, court `j` receives the `j`-th consecutive group of four (positions
0, 1 = Team 1 and 2, 3 = Team 2 by the rendering convention), and every
placed player's streak is set to 1. -/
theorem c6_fill_all_courts (cfg : Config) (s : AppState)
    (hk : s.courts.length = cfg.numCourts)
    (_hempty : ∀ c ∈ s.courts, c = [])
    (hq : 4 * cfg.numCourts ≤ s.queue.length) :
    (assignAllCourts cfg s).queue = s.queue.drop (4 * cfg.numCourts) ∧
    (∀ j, j < cfg.numCourts →
      (assignAllCourts cfg s).courts.getD j [] = (s.queue.drop (4 * j)).take 4) ∧
    (∀ p ∈ s.queue.take (4 * cfg.numCourts), (assignAllCourts cfg s).streaks p = 1) := by
  refine ⟨fillAux_queue_full cfg.numCourts s 0 hq, ?_,
    fillAux_streaks_one cfg.numCourts s 0 hq⟩
  intro j hj
  rw [assignAllCourts]
  have h := fillAux_reassign cfg.numCourts s 0 j hj (by omega) (by omega)
  simpa using h

/-- Witness for C6: one court, seven queued players; the first four fill the
court in order, the queue keeps [e, f, g], and a, b, c, d get streak 1. -/
theorem c6_fill_all_courts_witness :
    (assignAllCourts cfgOne stateB0).queue =
      stateB0.queue.drop (4 * cfgOne.numCourts) ∧
    (∀ j, j < cfgOne.numCourts →
      (assignAllCourts cfgOne stateB0).courts.getD j [] =
        (stateB0.queue.drop (4 * j)).take 4) ∧
    (∀ p ∈ stateB0.queue.take (4 * cfgOne.numCourts),
      (assignAllCourts cfgOne stateB0).streaks p = 1) :=
  c6_fill_all_courts cfgOne stateB0 (by decide) (by decide) (by decide)

/-- C7 (amended): a successful `process_result` appends exactly one record —
carrying `court_index + 1` (the 1-based court number), the winner pair and the
loser pair in their original court order — increasing the history length by
one and leaving every prior entry unchanged.  The claim's `court_index` field
value is refuted by `c7_counterexample`. -/
theorem c7_history_append (s : AppState) (i : Nat) (t : Team)
    (h4 : ¬(s.courts.getD i []).length < 4) :
    (processCourtResult s i t).2 = true ∧
    (processCourtResult s i t).1.history =
      s.history ++ [⟨i + 1, winnersOf (s.courts.getD i []) t,
        losersOf (s.courts.getD i []) t⟩] ∧
    (processCourtResult s i t).1.history.length = s.history.length + 1 ∧
    (∀ j, j < s.history.length →
      (processCourtResult s i t).1.history.getD j ⟨0, [], []⟩ =
        s.history.getD j ⟨0, [], []⟩) := by
  rw [processCourtResult_ok s i t h4]
  refine ⟨rfl, rfl, by simp, ?_⟩
  intro j hj
  dsimp only
  exact List.getD_append _ _ _ _ hj

/-- Witness for C7: processing court 0 of `stateA1` appends the single record
with court number 1 and the two ordered pairs. -/
theorem c7_history_append_witness :
    (processCourtResult stateA1 0 .team1).2 = true ∧
    (processCourtResult stateA1 0 .team1).1.history =
      stateA1.history ++ [⟨0 + 1, winnersOf (stateA1.courts.getD 0 []) .team1,
        losersOf (stateA1.courts.getD 0 []) .team1⟩] ∧
    (processCourtResult stateA1 0 .team1).1.history.length =
      stateA1.history.length + 1 ∧
    (∀ j, j < stateA1.history.length →
      (processCourtResult stateA1 0 .team1).1.history.getD j ⟨0, [], []⟩ =
        stateA1.history.getD j ⟨0, [], []⟩) :=
  c7_history_append stateA1 0 .team1 (by decide)

/-- Counterexample for C7 as stated: the record written for
`process_result(0, Team 1)` stores court number 1, not the court index 0. -/
theorem c7_counterexample :
    Reachable cfgDefault stateA2 ∧
    stateA2.history = [⟨1, ["a", "b"], ["c", "d"]⟩] ∧
    (stateA2.history.getD 0 ⟨0, [], []⟩).court ≠ 0 :=
  ⟨stateA2_reachable, by decide, by decide⟩

/-- C8: in any reachable state, `process_result` on a rendered court fails
exactly when that court does not hold 4 players (reachable courts hold 0, 3
or 4, so the source's `len(court) < 4` test coincides with `≠ 4`), and a
failed call returns the state unchanged — the early return performs no
mutation. -/
theorem c8_insufficient_players (cfg : Config) (s : AppState) (i : Nat) (t : Team)
    (h : Reachable cfg s) (_hi : i < cfg.numCourts) :
    ((processCourtResult s i t).2 = false ↔ (s.courts.getD i []).length ≠ 4) ∧
    ((processCourtResult s i t).2 = false → (processCourtResult s i t).1 = s) := by
  have hlen := lenInv_reachable h i
  by_cases h4 : (s.courts.getD i []).length < 4
  · rw [processCourtResult_fail s i t h4]
    refine ⟨⟨fun _ => by omega, fun _ => rfl⟩, fun _ => rfl⟩
  · rw [processCourtResult_ok s i t h4]
    constructor
    · constructor
      · intro hfalse
        simp at hfalse
      · intro hne
        exfalso
        rcases hlen with h0 | h0 | h0 <;> omega
    · intro hfalse
      simp at hfalse

/-- Witness for C8: at the initial default state, court 0 is empty, so the
call fails and the state is untouched. -/
theorem c8_insufficient_players_witness :
    ((processCourtResult (initState cfgDefault) 0 .team1).2 = false ↔
      ((initState cfgDefault).courts.getD 0 []).length ≠ 4) ∧
    ((processCourtResult (initState cfgDefault) 0 .team1).2 = false →
      (processCourtResult (initState cfgDefault) 0 .team1).1 = initState cfgDefault) :=
  c8_insufficient_players cfgDefault (initState cfgDefault) 0 .team1
    (reachable_init cfgDefault) (by decide)

/-- C9 (amended): `assign_all_courts` sets the streak of every player it
places to 1, but a player dequeued onto a court during the reseed step of
`process_result` keeps their prior streak value unchanged — the reseed does
not initialize it to 1 (see `c9_counterexample`). -/
theorem c9_streak_initialization (cfg : Config) (s : AppState) :
    (4 * cfg.numCourts ≤ s.queue.length →
      ∀ p ∈ s.queue.take (4 * cfg.numCourts), (assignAllCourts cfg s).streaks p = 1) ∧
    (∀ (i : Nat) (t : Team) (w1 w2 q1 q2 : Player) (qr : List Player),
      (s.courts.getD i []).Nodup →
      (s.courts.getD i []).length = 4 →
      winnersOf (s.courts.getD i []) t = [w1, w2] →
      s.streaks w1 + 1 < 3 → s.streaks w2 + 1 < 3 →
      s.queue = q1 :: q2 :: qr → 3 ≤ s.queue.length →
      q1 ∉ s.courts.getD i [] →
      (processCourtResult s i t).1.courts.getD i [] = [w1, q1, q2, w2] ∧
      (processCourtResult s i t).1.streaks q1 = s.streaks q1) := by
  constructor
  · intro hq p hp
    exact fillAux_streaks_one cfg.numCourts s 0 hq p hp
  · intro i t w1 w2 q1 q2 qr hnd hlen hW hs1 hs2 hqeq hq3 hq1c
    have h4 : ¬(s.courts.getD i []).length < 4 := by omega
    have hii : i < s.courts.length := by
      refine lt_length_of_getD_ne_nil _ _ ?_
      intro he
      rw [he] at hlen
      simp at hlen
    have hndWL : ((winnersOf (s.courts.getD i []) t ++
        losersOf (s.courts.getD i []) t) : List Player).Nodup :=
      (winners_append_losers_perm _ t).nodup_iff.mpr hnd
    rw [hW] at hndWL
    obtain ⟨_, hcourt, _⟩ := process_TT_long_aux s i t w1 w2 q1 q2 qr
      (losersOf (s.courts.getD i []) t) hW rfl hndWL h4 hii hs1 hs2 hqeq hq3
    refine ⟨hcourt, process_streaks_untouched s i t q1 h4 ?_ ?_⟩
    · intro hmem
      exact hq1c ((winnersOf_sublist _ t).mem hmem)
    · intro hmem
      exact hq1c ((losersOf_sublist _ t).mem hmem)

/-- Witness for C9: fill sets a, b, c, d to streak 1; reseeding court
[a, b, c, d] with queue [e, f, g] puts e on the court with streak unchanged. -/
theorem c9_streak_initialization_witness :
    (4 * cfgOne.numCourts ≤ stateB0.queue.length →
      ∀ p ∈ stateB0.queue.take (4 * cfgOne.numCourts),
        (assignAllCourts cfgOne stateB0).streaks p = 1) ∧
    ((processCourtResult stateB1 0 .team1).1.courts.getD 0 [] =
      ["a", "e", "f", "b"] ∧
      (processCourtResult stateB1 0 .team1).1.streaks "e" = stateB1.streaks "e") :=
  ⟨(c9_streak_initialization cfgOne stateB0).1,
   (c9_streak_initialization cfgOne stateB1).2 0 .team1 "a" "b" "e" "f" ["g"]
     (by decide) (by decide) (by decide) (by decide) (by decide) (by decide)
     (by decide) (by decide)⟩

/-- Counterexample for C9 as stated: player e first takes a court by being
dequeued during the reseed of `process_result`, yet e's streak counter is 0
afterwards, not 1 (it was never written). -/
theorem c9_counterexample :
    Reachable cfgOne stateB2 ∧
    stateB1.queue.getD 0 "" = "e" ∧
    stateB2.courts.getD 0 [] = ["a", "e", "f", "b"] ∧
    stateB2.streaks "e" = 0 ∧
    stateB2.streaks "e" ≠ 1 :=
  ⟨stateB2_reachable, by decide, by decide, by decide, by decide⟩

/-- C10 (amended): `assign_all_courts` never appends to the queue (the final
queue is a drop of the initial one), and a previous occupant of a reassigned
court who is neither in the queue nor on any other court afterwards appears in
neither the queue nor any court.  The extra "nor on any other court" proviso
is forced by `c10_counterexample`, where the dropped player still occupies an
untouched court. -/
theorem c10_fill_drops_occupants (cfg : Config) (s : AppState) (i : Nat)
    (p : Player)
    (hi : i < cfg.numCourts)
    (hlen : s.courts.length = cfg.numCourts)
    (_hp : p ∈ s.courts.getD i [])
    (hq4 : 4 * (i + 1) ≤ s.queue.length)
    (hpq : p ∉ s.queue)
    (hother : ∀ j, j ≠ i → p ∉ s.courts.getD j []) :
    (∃ m, (assignAllCourts cfg s).queue = s.queue.drop m) ∧
    p ∉ (assignAllCourts cfg s).queue ∧
    (∀ j, p ∉ (assignAllCourts cfg s).courts.getD j []) := by
  obtain ⟨m, hm⟩ := fillAux_queue_drop cfg.numCourts s 0
  refine ⟨⟨m, ?_⟩, ?_, ?_⟩
  · rw [assignAllCourts]
    exact hm
  · rw [assignAllCourts, hm]
    exact fun hmem => hpq ((List.drop_sublist m _).mem hmem)
  · intro j
    rw [assignAllCourts]
    by_cases hij : j = i
    · rw [hij]
      have hre := fillAux_reassign cfg.numCourts s 0 i hi hq4 (by omega)
      rw [Nat.zero_add] at hre
      rw [hre]
      intro hmem
      exact hpq ((List.drop_sublist (4 * i) _).mem ((List.take_sublist 4 _).mem hmem))
    · rcases fillAux_courts_pos cfg.numCourts s 0 j with hcase | ⟨w, hw, _⟩
      · rw [hcase]
        exact hother j hij
      · rw [hw]
        intro hmem
        exact hpq ((List.drop_sublist w _).mem ((List.take_sublist 4 _).mem hmem))

/-- Witness for C10: one court holding [a, b, c, d] with queue [e, f, g, h];
the fill reassigns the court and a ends up in neither the queue nor any
court. -/
theorem c10_fill_drops_occupants_witness :
    (∃ m, (assignAllCourts cfgOne stateD1).queue = stateD1.queue.drop m) ∧
    "a" ∉ (assignAllCourts cfgOne stateD1).queue ∧
    (∀ j, "a" ∉ (assignAllCourts cfgOne stateD1).courts.getD j []) :=
  c10_fill_drops_occupants cfgOne stateD1 0 "a" (by decide) (by decide) (by decide)
    (by decide) (by decide)
    (by
      intro j hj
      have hl : stateD1.courts.length = 1 := by decide
      rw [List.getD_eq_default _ _ (by omega)]
      exact List.not_mem_nil _)

/-- Counterexample for C10 as stated: in reachable state `stateC7`, court 0 is
non-empty and contains a, the queue holds four players not including a, yet
after `assign_all_courts` player a still occupies court 1 (an untouched
court), contradicting "appears in neither the Queue nor any court". -/
theorem c10_counterexample :
    Reachable cfgTwo stateC7 ∧
    stateC7.courts.getD 0 [] ≠ [] ∧
    "a" ∈ stateC7.courts.getD 0 [] ∧
    4 ≤ stateC7.queue.length ∧
    "a" ∉ stateC7.queue ∧
    (assignAllCourts cfgTwo stateC7).courts.getD 0 [] ≠ stateC7.courts.getD 0 [] ∧
    "a" ∈ (assignAllCourts cfgTwo stateC7).courts.getD 1 [] :=
  ⟨stateC7_reachable, by decide, by decide, by decide, by decide, by decide,
    by decide⟩

end Pickleball













